import Mathlib

/-!
Shallow embedding of the navigational-list service (NestJS + Mongoose) core:
the menu-item schema, the three-phase move/resequencing engine, the flat and
hierarchical bulk reorder operations, and the hierarchy assembler, together
with proofs about the resequencing invariants.

Modelling conventions:
* A Mongo collection is a `List MenuItemDoc` in natural (storage) order.
* `_id` values are `Nat`; an absent or null `parentId` is `none`.
* `bulkWrite` applies its `updateOne` operations left to right; each
  operation updates the first matching document, like Mongo's `updateOne`.
* Mongoose query middleware (the `pre` hook registered for
  `findOneAndUpdate`/`updateOne`/`updateMany`, which adds `$inc: {version: 1}`)
  runs for `findByIdAndUpdate`-based writes but, per Mongoose semantics,
  `Model.bulkWrite` does not trigger any middleware, so bulk operations do
  not touch `version`.
* `new Date()` timestamps are a `now : Nat` parameter.
-/

namespace NavSvc

inductive DomainEnum where
  | ADMIN
  | WORKSHOP
deriving DecidableEq, Repr

inductive StructuralSubtypeEnum where
  | HEADER
  | NAV
  | FOOTER
deriving DecidableEq, Repr

inductive StateEnum where
  | FULL
  | RELAXED
  | COMPACT
deriving DecidableEq, Repr

/-- The persisted menu-item document (schema fields of `MenuItemDoc`).
The hierarchy field `parentId` is present on the documents the service
reads and writes.  Modelled from the spec: the schema file for the
hierarchical service variant is not in the sources (the schema present
there pairs with the flat-reorder service and omits `parentId`); spec §3
defines `parentId` as an optional reference to another item's identity,
absence meaning "root of its partition". -/
structure MenuItemDoc where
  _id : Nat
  menuItemText : String
  routePath : String
  tooltipText : Option String
  navSvgPath : Option String
  headerSvgPath : Option String
  sortId : Int
  authRequired : Bool
  domain : DomainEnum
  structuralSubtype : StructuralSubtypeEnum
  state : StateEnum
  version : Int
  description : String
  lastUpdated : Nat
  archived : Bool
  parentId : Option Nat
deriving DecidableEq, Repr

abbrev Store := List MenuItemDoc

inductive ServiceError where
  | NotFound
  | Conflict
  | BadRequest
deriving DecidableEq, Repr

/-- `findById id` — Mongo point lookup by `_id` (first matching document). -/
def findById (id : Nat) (store : Store) : Option MenuItemDoc :=
  store.find? (fun d => d._id = id)

/-- One `updateOne` of a 'bulkWrite': update the first document matching the
filter. -/
def updateFirst (p : MenuItemDoc → Bool) (f : MenuItemDoc → MenuItemDoc) :
    Store → Store
  | [] => []
  | d :: ds => if p d then f d :: ds else d :: updateFirst p f ds

/-- A `(filter, update)` pair of a 'bulkWrite' batch. -/
abbrev BulkOp := (MenuItemDoc → Bool) × (MenuItemDoc → MenuItemDoc)

/-- `Model.bulkWrite`: the batch's conditional updates are applied
independently, left to right.  No Mongoose middleware runs, so no
`version` bump happens here. -/
def bulkWrite (ops : List BulkOp) (store : Store) : Store :=
  ops.foldl (fun s op => updateFirst op.1 op.2 s) store

/-- Comparison used by `.sort({ sortId: 1 })`. -/
def sortIdLE (a b : MenuItemDoc) : Prop := a.sortId ≤ b.sortId

instance : DecidableRel sortIdLE := fun a b =>
  inferInstanceAs (Decidable (a.sortId ≤ b.sortId))

instance : IsTotal MenuItemDoc sortIdLE :=
  ⟨fun a b => Int.le_total a.sortId b.sortId⟩

instance : IsTrans MenuItemDoc sortIdLE :=
  ⟨fun _ _ _ h₁ h₂ => Int.le_trans h₁ h₂⟩

/-- `.sort({ sortId: 1 })` — stable sort by `sortId` ascending (ties keep
natural storage order, the tolerated data-anomaly tie-break; a stable sort
is modelled by insertion sort, which is stable). -/
def sortBySortId (l : List MenuItemDoc) : List MenuItemDoc :=
  List.insertionSort sortIdLE l

/-- `findByDomainStructuralSubtypeAndState` — filtered scan of one
partition, archived items excluded unless `includeArchived`. -/
def findByDomainStructuralSubtypeAndState (store : Store) (domain : DomainEnum)
    (structuralSubtype : StructuralSubtypeEnum) (state : StateEnum)
    (includeArchived : Bool) : List MenuItemDoc :=
  sortBySortId (store.filter fun d =>
    d.domain = domain ∧ d.structuralSubtype = structuralSubtype ∧
      d.state = state ∧ (includeArchived ∨ d.archived = false))

/-- The payload of the move operation (`SortMenuItemDto`): target item id,
requested position (`sortId`, an integer, possibly out of range) and the
target parent (`parentId`, absent when moving to root). -/
structure SortMenuItemDto where
  _id : Nat
  sortId : Int
  parentId : Option Nat
deriving DecidableEq, Repr

/-- The parent part of the sibling filter: a concrete `parentId` is matched
by value; a root group is matched by "`parentId` absent or null", which the
option model renders as `= none`. -/
def parentMatches (parentId : Option Nat) (d : MenuItemDoc) : Bool :=
  match parentId with
  | some p => d.parentId = some p
  | none => d.parentId = none

/-- `buildSiblingFilter` of the move engine: same partition as `existing`,
not the excluded id, and the parent reference demanded by `parentId`. -/
def buildSiblingFilter (existing : MenuItemDoc) (parentId : Option Nat)
    (excludeId : Nat) (d : MenuItemDoc) : Bool :=
  (d._id ≠ excludeId ∧ d.domain = existing.domain ∧
    d.structuralSubtype = existing.structuralSubtype ∧
    d.state = existing.state) && parentMatches parentId d

/-- Phase 1 bulk operations from index `k`: the `j`-th document of the
fetched list is assigned `sortId = k + j + 1`. -/
def resequenceOpsFrom (k : Nat) : List MenuItemDoc → List BulkOp
  | [] => []
  | doc :: rest =>
    ((fun d => d._id = doc._id,
      fun d => { d with sortId := (k : Int) + 1 }) : BulkOp) ::
    resequenceOpsFrom (k + 1) rest

/-- Phase 1 bulk operations: reassign the fetched (ordered) old siblings
the dense sequence `1..M`, index by index (`idx + 1`). -/
def resequenceOps (docs : List MenuItemDoc) : List BulkOp :=
  resequenceOpsFrom 0 docs

/-- Phase 2 bulk operations: walk the ordered destination siblings with a
running index starting at 1, skipping (reserving) the slot equal to the
clamped requested position; only siblings whose stored `sortId` differs
from their new index are queued. -/
def insertionOps (requestedPosition : Int) :
    List MenuItemDoc → Int → List BulkOp
  | [], _ => []
  | sib :: rest, runningIndex =>
    let ri := if runningIndex = requestedPosition then runningIndex + 1
      else runningIndex
    (if sib.sortId ≠ ri then
        [((fun d => d._id = sib._id, fun d => { d with sortId := ri }) : BulkOp)]
      else ([] : List BulkOp)) ++ insertionOps requestedPosition rest (ri + 1)

/-- `existing.parentId !== updateItem.parentId`: a stored ObjectId is never
strictly equal to a request string, so this is false exactly when both
sides are undefined. -/
def parentChanged (existing : MenuItemDoc) (updateItem : SortMenuItemDto) :
    Bool :=
  existing.parentId.isSome || updateItem.parentId.isSome

/-- The moved item's current siblings, ordered by `sortId` (the item
itself excluded by the filter). -/
def oldSiblings (store : Store) (existing : MenuItemDoc) :
    List MenuItemDoc :=
  sortBySortId (store.filter
    (buildSiblingFilter existing existing.parentId existing._id))

/-- Phase 1: when the parent changed, resequence the old group (without
the moved item) to `1..M`, closing the gap it leaves. -/
def closeGapStore (store : Store) (existing : MenuItemDoc)
    (updateItem : SortMenuItemDto) : Store :=
  if parentChanged existing updateItem then
    bulkWrite (resequenceOps (oldSiblings store existing)) store
  else store

/-- The destination group's siblings, ordered by `sortId`, the moved item
excluded. -/
def targetSiblings (store1 : Store) (existing : MenuItemDoc)
    (updateItem : SortMenuItemDto) : List MenuItemDoc :=
  sortBySortId (store1.filter
    (buildSiblingFilter existing updateItem.parentId existing._id))

/-- Clamp the (already `≥ 1`) requested position into
`[1, siblingCount + 1]`. -/
def clampPosition (pos : Int) (siblingCount : Nat) : Int :=
  if pos > (siblingCount : Int) + 1 then (siblingCount : Int) + 1 else pos

/-- Phase 3: `findByIdAndUpdate` of the moved item — new parent (`$unset`
when moving to root), reserved position, fresh timestamp; query middleware
bumps `version`. -/
def commitMovedItem (store2 : Store) (existing : MenuItemDoc)
    (updateItem : SortMenuItemDto) (requestedPosition : Int) (now : Nat) :
    Store :=
  match updateItem.parentId with
  | some p => updateFirst (fun d => d._id = existing._id)
      (fun d => { d with parentId := some p, sortId := requestedPosition,
                         lastUpdated := now, version := d.version + 1 })
      store2
  | none => updateFirst (fun d => d._id = existing._id)
      (fun d => { d with parentId := none, sortId := requestedPosition,
                         lastUpdated := now, version := d.version + 1 })
      store2

/-- The position the moved item is committed to: the normalised request
(`max 1 ⌊sortId⌋`) clamped against the destination sibling count. -/
def moveRequestedPosition (store : Store) (existing : MenuItemDoc)
    (updateItem : SortMenuItemDto) : Int :=
  clampPosition (max 1 updateItem.sortId)
    (targetSiblings (closeGapStore store existing updateItem) existing
      updateItem).length

/-- The write pipeline of the move: gap closure, destination walk, commit. -/
def movePipeline (store : Store) (existing : MenuItemDoc)
    (updateItem : SortMenuItemDto) (now : Nat) : Store :=
  let store1 := closeGapStore store existing updateItem
  let requestedPosition := moveRequestedPosition store existing updateItem
  commitMovedItem
    (bulkWrite
      (insertionOps requestedPosition (targetSiblings store1 existing
        updateItem) 1)
      store1)
    existing updateItem requestedPosition now

/-- The move / resequencing engine (`reorderMenuItems` of the hierarchical
service variant): look up the item (NotFound when absent), normalise the
requested position to at least 1, close the gap in the old group when the
parent changed, clamp the position against the destination group, walk the
destination siblings around the reserved slot, and commit the moved item. -/
def reorderMenuItems (store : Store) (updateItem : SortMenuItemDto)
    (now : Nat) : Except ServiceError MenuItemDoc × Store :=
  match findById updateItem._id store with
  | none => (.error .NotFound, store)
  | some existing =>
    let store3 := movePipeline store existing updateItem now
    match findById existing._id store3 with
    | none => (.error .NotFound, store3)
    | some updatedItem => (.ok updatedItem, store3)

/-- Bulk operations of the flat reorder: the document at index `index` of
`itemIds` (0-based) is assigned `sortId = index`, conditional on the id
belonging to the given partition.  `bulkWrite` runs no middleware, so
`version` is untouched. -/
def flatOpsFrom (domain : DomainEnum)
    (structuralSubtype : StructuralSubtypeEnum) (state : StateEnum)
    (now : Nat) (k : Nat) : List Nat → List BulkOp
  | [] => []
  | id :: rest =>
    ((fun d => d._id = id ∧ d.domain = domain ∧
        d.structuralSubtype = structuralSubtype ∧ d.state = state,
      fun d => { d with sortId := (k : Int), lastUpdated := now }) : BulkOp) ::
    flatOpsFrom domain structuralSubtype state now (k + 1) rest

def flatOps (domain : DomainEnum) (structuralSubtype : StructuralSubtypeEnum)
    (state : StateEnum) (itemIds : List Nat) (now : Nat) : List BulkOp :=
  flatOpsFrom domain structuralSubtype state now 0 itemIds

/-- The flat bulk reorder (`reorderMenuItems` of the flat service variant):
apply the index assignments, then return the partition's current ordered
list (archived excluded by the read's default). -/
def reorderMenuItemsFlat (store : Store) (domain : DomainEnum)
    (structuralSubtype : StructuralSubtypeEnum) (state : StateEnum)
    (itemIds : List Nat) (now : Nat) : List MenuItemDoc × Store :=
  let store' := bulkWrite (flatOps domain structuralSubtype state itemIds now) store
  (findByDomainStructuralSubtypeAndState store' domain structuralSubtype state false,
   store')

/-- A node of the hierarchical reorder payload: `{id, sortId, parentId?,
children?}`.  `parentId = none` models an absent (`undefined`) field, which
leaves the stored parent untouched. -/
inductive HierarchicalReorderItem where
  | node (id : Nat) (sortId : Int) (parentId : Option Nat)
      (children : List HierarchicalReorderItem)
deriving Repr

mutual

/-- `extractAllIds` on one node: the node's id, then its children's ids. -/
def extractItemIds : HierarchicalReorderItem → List Nat
  | .node i _ _ children => i :: extractAllIds children

/-- `extractAllIds` — depth-first flattening of the payload's ids: each
node's id, then its children's ids, then the rest of its siblings. -/
def extractAllIds : List HierarchicalReorderItem → List Nat
  | [] => []
  | item :: rest => extractItemIds item ++ extractAllIds rest

end

mutual

/-- One node's conditional update, filtered by `_id` only, setting
`sortId` and `lastUpdated`, and the parent reference when the payload
carries one, followed by the children's updates. -/
def buildItemUpdates (now : Nat) : HierarchicalReorderItem → List BulkOp
  | .node i sortId parentId children =>
    ((fun d => d._id = i,
      fun d => match parentId with
        | some p => { d with sortId := sortId, lastUpdated := now,
                             parentId := some p }
        | none => { d with sortId := sortId, lastUpdated := now }) : BulkOp) ::
    buildHierarchicalUpdates now children

/-- `buildHierarchicalUpdates` — depth-first: each node's update, then its
children's, then its siblings'. -/
def buildHierarchicalUpdates (now : Nat) :
    List HierarchicalReorderItem → List BulkOp
  | [] => []
  | item :: rest =>
    buildItemUpdates now item ++ buildHierarchicalUpdates now rest

end

/-- The hierarchical bulk reorder (`reorderMenuItemsHierarchical`): reject
with BadRequest when the number of partition documents whose id occurs in
the flattened payload differs from the flattened id count, otherwise apply
all node updates as one batch and return the partition's current list. -/
def reorderMenuItemsHierarchical (store : Store) (domain : DomainEnum)
    (structuralSubtype : StructuralSubtypeEnum) (state : StateEnum)
    (items : List HierarchicalReorderItem) (now : Nat) :
    Except ServiceError (List MenuItemDoc) × Store :=
  let allItemIds := extractAllIds items
  let existingItems := store.filter fun d =>
    allItemIds.contains d._id ∧ d.domain = domain ∧
      d.structuralSubtype = structuralSubtype ∧ d.state = state
  if existingItems.length ≠ allItemIds.length then
    (.error .BadRequest, store)
  else
    let updates := buildHierarchicalUpdates now items
    let store' := if updates.length > 0 then bulkWrite updates store else store
    (.ok (findByDomainStructuralSubtypeAndState store' domain structuralSubtype
        state false),
     store')

/-- The partial update payload (`UpdateMenuItemDto`): `none` models a field
absent from the request. -/
structure UpdateMenuItemDto where
  menuItemText : Option String := none
  routePath : Option String := none
  tooltipText : Option String := none
  navSvgPath : Option String := none
  headerSvgPath : Option String := none
  sortId : Option Int := none
  authRequired : Option Bool := none
  domain : Option DomainEnum := none
  structuralSubtype : Option StructuralSubtypeEnum := none
  state : Option StateEnum := none
  description : Option String := none
  archived : Option Bool := none
  parentId : Option Nat := none
deriving DecidableEq, Repr

/-- Effect of `findByIdAndUpdate(id, { ...dto, lastUpdated })` on the
matched document: supplied fields are `$set`, `lastUpdated` is stamped,
and the query middleware adds `$inc: { version: 1 }`. -/
def applyUpdateDto (dto : UpdateMenuItemDto) (now : Nat) (d : MenuItemDoc) :
    MenuItemDoc :=
  { d with
    menuItemText := dto.menuItemText.getD d.menuItemText
    routePath := dto.routePath.getD d.routePath
    tooltipText := match dto.tooltipText with
      | some t => some t
      | none => d.tooltipText
    navSvgPath := match dto.navSvgPath with
      | some t => some t
      | none => d.navSvgPath
    headerSvgPath := match dto.headerSvgPath with
      | some t => some t
      | none => d.headerSvgPath
    sortId := dto.sortId.getD d.sortId
    authRequired := dto.authRequired.getD d.authRequired
    domain := dto.domain.getD d.domain
    structuralSubtype := dto.structuralSubtype.getD d.structuralSubtype
    state := dto.state.getD d.state
    description := dto.description.getD d.description
    archived := dto.archived.getD d.archived
    parentId := match dto.parentId with
      | some p => some p
      | none => d.parentId
    lastUpdated := now
    version := d.version + 1 }

/-- `update` — `findByIdAndUpdate` with the partial payload; NotFound when
no document has the id (in which case nothing is written). -/
def update (store : Store) (id : Nat) (dto : UpdateMenuItemDto) (now : Nat) :
    Except ServiceError MenuItemDoc × Store :=
  let store' := updateFirst (fun d => d._id = id) (applyUpdateDto dto now) store
  match findById id store' with
  | none => (.error .NotFound, store)
  | some u => (.ok u, store')

/-- `archive` — `update` with `{ archived: true }`. -/
def archive (store : Store) (id : Nat) (now : Nat) :
    Except ServiceError MenuItemDoc × Store :=
  update store id { archived := some true } now

/-- `unarchive` — `update` with `{ archived: false }`. -/
def unarchive (store : Store) (id : Nat) (now : Nat) :
    Except ServiceError MenuItemDoc × Store :=
  update store id { archived := some false } now

/-- `remove` — `findByIdAndDelete`: delete the document with the id, or
NotFound; former siblings are not touched. -/
def remove (store : Store) (id : Nat) :
    Except ServiceError Unit × Store :=
  match findById id store with
  | none => (.error .NotFound, store)
  | some _ => (.ok (), store.eraseP (fun d => d._id = id))

/-- Mongo compares the stored enum strings; these are the stored values. -/
def subtypeKey : StructuralSubtypeEnum → String
  | .HEADER => "HEADER"
  | .NAV => "NAV"
  | .FOOTER => "FOOTER"

/-- Stored string values of `StateEnum`. -/
def stateKey : StateEnum → String
  | .FULL => "FULL"
  | .RELAXED => "RELAXED"
  | .COMPACT => "COMPACT"

/-- `.sort({ structuralSubtype: 1, state: 1, sortId: 1 })` — lexicographic
comparison of the stored strings, then `sortId`. -/
def domainScanLE (a b : MenuItemDoc) : Prop :=
  subtypeKey a.structuralSubtype < subtypeKey b.structuralSubtype ∨
    (subtypeKey a.structuralSubtype = subtypeKey b.structuralSubtype ∧
      (stateKey a.state < stateKey b.state ∨
        (stateKey a.state = stateKey b.state ∧ a.sortId ≤ b.sortId)))

instance : DecidableRel domainScanLE := fun a b => by
  unfold domainScanLE; infer_instance

instance : IsTotal MenuItemDoc domainScanLE := by
  constructor
  intro a b
  unfold domainScanLE
  rcases lt_trichotomy (subtypeKey a.structuralSubtype)
    (subtypeKey b.structuralSubtype) with h | h | h
  · exact Or.inl (Or.inl h)
  · rcases lt_trichotomy (stateKey a.state) (stateKey b.state) with h' | h' | h'
    · exact Or.inl (Or.inr ⟨h, Or.inl h'⟩)
    · rcases Int.le_total a.sortId b.sortId with h'' | h''
      · exact Or.inl (Or.inr ⟨h, Or.inr ⟨h', h''⟩⟩)
      · exact Or.inr (Or.inr ⟨h.symm, Or.inr ⟨h'.symm, h''⟩⟩)
    · exact Or.inr (Or.inr ⟨h.symm, Or.inl h'⟩)
  · exact Or.inr (Or.inl h)

instance : IsTrans MenuItemDoc domainScanLE := by
  constructor
  intro a b c hab hbc
  unfold domainScanLE at hab hbc ⊢
  rcases hab with h₁ | ⟨e₁, h₁⟩
  · rcases hbc with h₂ | ⟨e₂, _⟩
    · exact Or.inl (lt_trans h₁ h₂)
    · exact Or.inl (e₂ ▸ h₁)
  · rcases hbc with h₂ | ⟨e₂, h₂⟩
    · exact Or.inl (e₁ ▸ h₂)
    · refine Or.inr ⟨e₁.trans e₂, ?_⟩
      rcases h₁ with h₁ | ⟨f₁, h₁⟩
      · rcases h₂ with h₂ | ⟨f₂, _⟩
        · exact Or.inl (lt_trans h₁ h₂)
        · exact Or.inl (f₂ ▸ h₁)
      · rcases h₂ with h₂ | ⟨f₂, h₂⟩
        · exact Or.inl (f₁ ▸ h₂)
        · exact Or.inr ⟨f₁.trans f₂, Int.le_trans h₁ h₂⟩

/-- `findByDomain` — all items of a domain (archived excluded unless
requested), ordered by `(structuralSubtype, state, sortId)`. -/
def findByDomain (store : Store) (domain : DomainEnum)
    (includeArchived : Bool) : List MenuItemDoc :=
  List.insertionSort domainScanLE (store.filter fun d =>
    d.domain = domain ∧ (includeArchived ∨ d.archived = false))

/-- The nested `structuralSubtype -> state -> ordered list` grouping, as
association lists in key-encounter order (JS object key insertion order). -/
structure MenuHierarchy where
  domain : DomainEnum
  structuralSubtypes :
    List (StructuralSubtypeEnum × List (StateEnum × List MenuItemDoc))
deriving Repr

/-- Push an item onto its state bucket, creating the bucket at the end
when the state key is new (JS `states[item.state] ||= []; push`). -/
def pushState (state : StateEnum) (item : MenuItemDoc) :
    List (StateEnum × List MenuItemDoc) → List (StateEnum × List MenuItemDoc)
  | [] => [(state, [item])]
  | (st, docs) :: rest =>
    if st = state then (st, docs ++ [item]) :: rest
    else (st, docs) :: pushState state item rest

/-- Push an item onto its structural-subtype bucket, creating the bucket
at the end when the subtype key is new. -/
def pushItem (item : MenuItemDoc) :
    List (StructuralSubtypeEnum × List (StateEnum × List MenuItemDoc)) →
    List (StructuralSubtypeEnum × List (StateEnum × List MenuItemDoc))
  | [] => [(item.structuralSubtype, pushState item.state item [])]
  | (sub, states) :: rest =>
    if sub = item.structuralSubtype then
      (sub, pushState item.state item states) :: rest
    else (sub, states) :: pushItem item rest

/-- `getMenuHierarchy` — fetch the domain's items in
`(structuralSubtype, state, sortId)` order and group them; a pure
projection, the store is returned unchanged. -/
def getMenuHierarchy (store : Store) (domain : DomainEnum)
    (includeArchived : Bool) : MenuHierarchy × Store :=
  ({ domain := domain
     structuralSubtypes :=
       (findByDomain store domain includeArchived).foldl
         (fun acc item => pushItem item acc) [] },
   store)

/-- Flatten the nested grouping back to one list, in stored key order. -/
def flattenHierarchy (h : MenuHierarchy) : List MenuItemDoc :=
  (h.structuralSubtypes.map fun p => (p.2.map fun q => q.2).flatten).flatten

/-- Concrete document for examples and witnesses: id, position and parent
within a fixed partition, with the schema's defaults everywhere else. -/
def mkDoc (id : Nat) (sortId : Int) (parentId : Option Nat)
    (domain : DomainEnum) (sub : StructuralSubtypeEnum) (state : StateEnum) :
    MenuItemDoc :=
  { _id := id, menuItemText := "item", routePath := "/item",
    tooltipText := none, navSvgPath := none, headerSvgPath := none,
    sortId := sortId, authRequired := false, domain := domain,
    structuralSubtype := sub, state := state, version := 1,
    description := "No description provided", lastUpdated := 0,
    archived := false, parentId := parentId }

/-- Membership in one sibling group: same partition triple and the same
parent reference (`none` being the root group of the partition). -/
def inSiblingGroup (domain : DomainEnum) (sub : StructuralSubtypeEnum)
    (state : StateEnum) (parentId : Option Nat) (d : MenuItemDoc) : Bool :=
  d.domain = domain ∧ d.structuralSubtype = sub ∧ d.state = state ∧
    d.parentId = parentId

/-- The documents of one sibling group, in storage order. -/
def siblingGroup (store : Store) (domain : DomainEnum)
    (sub : StructuralSubtypeEnum) (state : StateEnum)
    (parentId : Option Nat) : List MenuItemDoc :=
  store.filter (inSiblingGroup domain sub state parentId)

/-- The `_id` values of a store, in storage order. -/
def storeIds (store : Store) : List Nat :=
  store.map fun d => d._id

/-- The dense sequence `start, start+1, ..., start+n-1` of positions. -/
def posRangeFrom (start : Int) : Nat → List Int
  | 0 => []
  | n + 1 => start :: posRangeFrom (start + 1) n

/-! ### Pointwise characterisation of `bulkWrite` -/

/-- Apply a batch of conditional updates to a single document, left to
right. -/
def chainOps (ops : List BulkOp) (d : MenuItemDoc) : MenuItemDoc :=
  ops.foldl (fun d op => if op.1 d then op.2 d else d) d

theorem chainOps_nil (d : MenuItemDoc) : chainOps [] d = d := rfl

theorem chainOps_cons (op : BulkOp) (ops : List BulkOp) (d : MenuItemDoc) :
    chainOps (op :: ops) d = chainOps ops (if op.1 d then op.2 d else d) := rfl

theorem chainOps_append (a b : List BulkOp) (d : MenuItemDoc) :
    chainOps (a ++ b) d = chainOps b (chainOps a d) := by
  simp [chainOps, List.foldl_append]

theorem updateFirst_map_proj {α : Type} (proj : MenuItemDoc → α)
    (p : MenuItemDoc → Bool) (f : MenuItemDoc → MenuItemDoc)
    (hf : ∀ d, proj (f d) = proj d) :
    ∀ l : Store, (updateFirst p f l).map proj = l.map proj := by
  intro l
  induction l with
  | nil => rfl
  | cons d ds ih =>
    by_cases h : p d
    · simp [updateFirst, h, hf]
    · simp [updateFirst, h, ih]

theorem bulkWrite_map_proj {α : Type} (proj : MenuItemDoc → α)
    (ops : List BulkOp) (store : Store)
    (h : ∀ op ∈ ops, ∀ d, proj (op.2 d) = proj d) :
    (bulkWrite ops store).map proj = store.map proj := by
  induction ops generalizing store with
  | nil => rfl
  | cons op ops ih =>
    have h1 : ∀ d, proj (op.2 d) = proj d := fun d => h op (by simp) d
    have h2 : ∀ op' ∈ ops, ∀ d, proj (op'.2 d) = proj d := fun op' hm d =>
      h op' (by simp [hm]) d
    calc (bulkWrite (op :: ops) store).map proj
        = (bulkWrite ops (updateFirst op.1 op.2 store)).map proj := rfl
      _ = (updateFirst op.1 op.2 store).map proj := ih _ h2
      _ = store.map proj := updateFirst_map_proj proj _ _ h1 store

/-- When the filter can only match one `_id`, store ids are distinct and
the update preserves `_id`, the first-match update is a pointwise map. -/
theorem updateFirst_eq_map (p : MenuItemDoc → Bool)
    (f : MenuItemDoc → MenuItemDoc) (i : Nat)
    (hp : ∀ d, p d = true → d._id = i) :
    ∀ l : Store, (storeIds l).Nodup →
      updateFirst p f l = l.map fun d => if p d then f d else d := by
  intro l
  induction l with
  | nil => intro _; rfl
  | cons d ds ih =>
    intro hnd
    simp only [storeIds, List.map_cons, List.nodup_cons] at hnd
    by_cases h : p d
    · have hdi : d._id = i := hp d h
      have hfalse : ∀ e ∈ ds, p e = false := by
        intro e he
        by_contra hc
        have hpe : p e = true := by
          cases hpe : p e with
          | false => exact absurd hpe hc
          | true => rfl
        have : e._id = i := hp e hpe
        exact hnd.1 (hdi ▸ this ▸ List.mem_map_of_mem (fun d => d._id) he)
      have hmap : ds.map (fun e => if p e then f e else e) = ds := by
        rw [List.map_congr_left (g := fun e => e)
          (fun e he => by simp [hfalse e he])]
        exact List.map_id' ds
      simp [updateFirst, h, hmap]
    · simp [updateFirst, h, ih hnd.2]

/-- Every filter of the batch is bound to a single `_id` and every update
preserves `_id`. -/
def opsIdBound (ops : List BulkOp) : Prop :=
  ∀ op ∈ ops, (∃ i, ∀ d, op.1 d = true → d._id = i) ∧
    ∀ d, (op.2 d)._id = d._id

theorem bulkWrite_eq_map (ops : List BulkOp) (hops : opsIdBound ops) :
    ∀ store : Store, (storeIds store).Nodup →
      bulkWrite ops store = store.map (chainOps ops) := by
  induction ops with
  | nil =>
    intro store _
    have : store.map (chainOps []) = store.map fun d => d := rfl
    simp [bulkWrite, this]
  | cons op ops ih =>
    intro store hnd
    obtain ⟨⟨i, hi⟩, hid⟩ := hops op (by simp)
    have hops' : opsIdBound ops := fun op' hm => hops op' (by simp [hm])
    have h1 : updateFirst op.1 op.2 store =
        store.map fun d => if op.1 d then op.2 d else d :=
      updateFirst_eq_map op.1 op.2 i hi store hnd
    have h2 : (storeIds (updateFirst op.1 op.2 store)).Nodup := by
      have : storeIds (updateFirst op.1 op.2 store) = storeIds store := by
        simpa [storeIds] using
          updateFirst_map_proj (fun d => d._id) op.1 op.2 hid store
      rw [this]; exact hnd
    calc bulkWrite (op :: ops) store
        = bulkWrite ops (updateFirst op.1 op.2 store) := rfl
      _ = (updateFirst op.1 op.2 store).map (chainOps ops) := ih hops' _ h2
      _ = store.map (chainOps (op :: ops)) := by
          rw [h1, List.map_map]; rfl

/-! ### Lookup lemmas -/

theorem findById_of_mem_nodup {d : MenuItemDoc} {store : Store}
    (hmem : d ∈ store) (hnd : (storeIds store).Nodup) :
    findById d._id store = some d := by
  induction store with
  | nil => cases hmem
  | cons e es ih =>
    simp only [storeIds, List.map_cons, List.nodup_cons] at hnd
    rcases List.mem_cons.mp hmem with rfl | hmem'
    · simp [findById]
    · have hne : e._id ≠ d._id := by
        intro h
        exact hnd.1 (h ▸ List.mem_map_of_mem (fun d => d._id) hmem')
      have hrec : findById d._id es = some d := ih hmem' hnd.2
      simp only [findById] at hrec ⊢
      rw [List.find?_cons_of_neg _ (by simpa using hne)]
      exact hrec

theorem findById_map {i : Nat} {f : MenuItemDoc → MenuItemDoc}
    (hf : ∀ d, (f d)._id = d._id) (store : Store) :
    findById i (store.map f) = (findById i store).map f := by
  induction store with
  | nil => rfl
  | cons e es ih =>
    by_cases h : e._id = i
    · simp [findById, List.find?, hf, h]
    · simp only [findById, List.map_cons, List.find?] at *
      simp [hf, h, ih]

theorem findById_mem {i : Nat} {d : MenuItemDoc} {store : Store}
    (h : findById i store = some d) : d ∈ store ∧ d._id = i := by
  induction store with
  | nil => simp [findById] at h
  | cons e es ih =>
    by_cases he : e._id = i
    · simp only [findById] at h
      rw [List.find?_cons_of_pos _ (by simpa using he)] at h
      cases h
      exact ⟨by simp, he⟩
    · simp only [findById] at h ih
      rw [List.find?_cons_of_neg _ (by simpa using he)] at h
      exact ⟨List.mem_cons_of_mem _ (ih h).1, (ih h).2⟩

theorem findById_eq_none_iff {i : Nat} {store : Store} :
    findById i store = none ↔ i ∉ storeIds store := by
  simp only [findById, List.find?_eq_none, storeIds, List.mem_map,
    not_exists, not_and, decide_eq_true_eq]

theorem mem_id_eq_of_nodup {a b : MenuItemDoc} {store : Store}
    (hnd : (storeIds store).Nodup) (ha : a ∈ store) (hb : b ∈ store)
    (hid : a._id = b._id) : a = b := by
  have hfa := findById_of_mem_nodup ha hnd
  have hfb := findById_of_mem_nodup hb hnd
  rw [hid, hfb] at hfa
  exact (Option.some_inj.mp hfa).symm

theorem bulkWrite_append (a b : List BulkOp) (store : Store) :
    bulkWrite (a ++ b) store = bulkWrite b (bulkWrite a store) := by
  simp [bulkWrite, List.foldl_append]

theorem updateFirst_of_no_match (p : MenuItemDoc → Bool)
    (f : MenuItemDoc → MenuItemDoc) (store : Store)
    (h : ∀ d ∈ store, p d = false) : updateFirst p f store = store := by
  induction store with
  | nil => rfl
  | cons e es ih =>
    have : p e = false := h e (by simp)
    simp [updateFirst, this, ih fun d hd => h d (by simp [hd])]

/-! ### Claim C8 -/

/-- C8.  The sibling filter built for a root item matches exactly the
same-partition items (other than the excluded one) whose parent reference
is absent-or-null (`none`), and the filter built for a concrete parent
matches exactly those whose parent is that concrete value; a root group
can therefore never be conflated with a group under a concrete parent. -/
theorem buildSiblingFilter_root_vs_concrete :
    (∀ (existing d : MenuItemDoc) (excl : Nat),
      buildSiblingFilter existing none excl d = true ↔
        d._id ≠ excl ∧ d.domain = existing.domain ∧
          d.structuralSubtype = existing.structuralSubtype ∧
          d.state = existing.state ∧ d.parentId = none) ∧
    (∀ (existing d : MenuItemDoc) (excl p : Nat),
      buildSiblingFilter existing (some p) excl d = true ↔
        d._id ≠ excl ∧ d.domain = existing.domain ∧
          d.structuralSubtype = existing.structuralSubtype ∧
          d.state = existing.state ∧ d.parentId = some p) := by
  constructor
  · intro existing d excl
    simp [buildSiblingFilter, parentMatches, and_assoc]
  · intro existing d excl p
    simp [buildSiblingFilter, parentMatches, and_assoc]

/-! ### Claim C9 -/

/-- C9.  `remove` on an existing item deletes exactly that item: the store
splits as `l₁ ++ d :: l₂` before and `l₁ ++ l₂` after, so every other
document — in particular every former sibling and its `sortId` — is left
byte-for-byte unchanged, leaving the gap in the group's sequence. -/
theorem remove_deletes_exactly_one (store : Store) (d : MenuItemDoc)
    (hnd : (storeIds store).Nodup)
    (hfind : findById d._id store = some d) :
    ∃ l₁ l₂, store = l₁ ++ d :: l₂ ∧
      remove store d._id = (.ok (), l₁ ++ l₂) := by
  have hmem : d ∈ store := (findById_mem hfind).1
  obtain ⟨a, l₁, l₂, hl₁, hpa, hsplit, herase⟩ :=
    List.exists_of_eraseP (p := fun e => decide (e._id = d._id)) hmem
      (by simp)
  have ha : a = d := by
    have hamem : a ∈ store := by rw [hsplit]; simp
    exact mem_id_eq_of_nodup hnd hamem hmem (by simpa using hpa)
  refine ⟨l₁, l₂, by rw [hsplit, ha], ?_⟩
  simp only [remove, hfind]
  rw [show store.eraseP (fun e => decide (e._id = d._id)) = l₁ ++ l₂
    from herase]

/-- Witness for C9: removing item 1 from a two-item group keeps item 2
with its `sortId` 2 untouched. -/
theorem remove_deletes_exactly_one_witness :
    ∃ l₁ l₂,
      ([mkDoc 1 1 none .ADMIN .HEADER .FULL,
        mkDoc 2 2 none .ADMIN .HEADER .FULL] : Store) =
        l₁ ++ (mkDoc 1 1 none .ADMIN .HEADER .FULL) :: l₂ ∧
      remove [mkDoc 1 1 none .ADMIN .HEADER .FULL,
        mkDoc 2 2 none .ADMIN .HEADER .FULL]
        (mkDoc 1 1 none .ADMIN .HEADER .FULL)._id = (.ok (), l₁ ++ l₂) :=
  remove_deletes_exactly_one _ (mkDoc 1 1 none .ADMIN .HEADER .FULL)
    (by decide) (by decide)

/-! ### Preservation shapes of the bulk-operation generators -/

/-- Bulk batches whose updates leave the projection unchanged. -/
abbrev opsPreserve {α : Type} (proj : MenuItemDoc → α) (ops : List BulkOp) :
    Prop :=
  ∀ op ∈ ops, ∀ d, proj (op.2 d) = proj d

theorem resequenceOpsFrom_preserve {α : Type} (proj : MenuItemDoc → α)
    (hproj : ∀ d v, proj { d with sortId := v } = proj d) :
    ∀ (k : Nat) (docs : List MenuItemDoc),
      opsPreserve proj (resequenceOpsFrom k docs) := by
  intro k docs
  induction docs generalizing k with
  | nil => intro op hop; cases hop
  | cons doc rest ih =>
    intro op hop d
    rcases List.mem_cons.mp hop with rfl | hop'
    · exact hproj d _
    · exact ih (k + 1) op hop' d

theorem insertionOps_preserve {α : Type} (proj : MenuItemDoc → α)
    (hproj : ∀ d v, proj { d with sortId := v } = proj d) (req : Int) :
    ∀ (sibs : List MenuItemDoc) (ri : Int),
      opsPreserve proj (insertionOps req sibs ri) := by
  intro sibs
  induction sibs with
  | nil => intro ri op hop; cases hop
  | cons sib rest ih =>
    intro ri op hop d
    simp only [insertionOps] at hop
    rcases List.mem_append.mp hop with h1 | h2
    · by_cases hc : sib.sortId ≠ (if ri = req then ri + 1 else ri)
      · rw [if_pos hc] at h1
        rcases List.mem_singleton.mp h1 with rfl
        exact hproj d _
      · rw [if_neg hc] at h1
        cases h1
    · exact ih _ op h2 d

theorem flatOpsFrom_preserve {α : Type} (proj : MenuItemDoc → α)
    (domain : DomainEnum) (sub : StructuralSubtypeEnum) (state : StateEnum)
    (now : Nat)
    (hproj : ∀ d v, proj { d with sortId := v, lastUpdated := now } = proj d) :
    ∀ (k : Nat) (ids : List Nat),
      opsPreserve proj (flatOpsFrom domain sub state now k ids) := by
  intro k ids
  induction ids generalizing k with
  | nil => intro op hop; cases hop
  | cons i rest ih =>
    intro op hop d
    rcases List.mem_cons.mp hop with rfl | hop'
    · exact hproj d _
    · exact ih (k + 1) op hop' d

mutual

theorem buildItemUpdates_preserve {α : Type}
    (proj : MenuItemDoc → α) (now : Nat)
    (hproj₁ : ∀ d v, proj { d with sortId := v, lastUpdated := now } = proj d)
    (hproj₂ : ∀ d v p,
      proj { d with sortId := v, lastUpdated := now, parentId := some p } =
        proj d) :
    ∀ item : HierarchicalReorderItem,
      opsPreserve proj (buildItemUpdates now item)
  | .node i sortId parentId children => by
    intro op hop d
    simp only [buildItemUpdates] at hop
    rcases List.mem_cons.mp hop with rfl | hop'
    · cases parentId with
      | some p => exact hproj₂ d _ _
      | none => exact hproj₁ d _
    · exact buildHierarchicalUpdates_preserve proj now hproj₁ hproj₂
        children op hop' d

theorem buildHierarchicalUpdates_preserve {α : Type}
    (proj : MenuItemDoc → α) (now : Nat)
    (hproj₁ : ∀ d v, proj { d with sortId := v, lastUpdated := now } = proj d)
    (hproj₂ : ∀ d v p,
      proj { d with sortId := v, lastUpdated := now, parentId := some p } =
        proj d) :
    ∀ items : List HierarchicalReorderItem,
      opsPreserve proj (buildHierarchicalUpdates now items)
  | [] => by intro op hop; simp [buildHierarchicalUpdates] at hop
  | item :: rest => by
    intro op hop d
    simp only [buildHierarchicalUpdates] at hop
    rcases List.mem_append.mp hop with h1 | h2
    · exact buildItemUpdates_preserve proj now hproj₁ hproj₂ item op h1 d
    · exact buildHierarchicalUpdates_preserve proj now hproj₁ hproj₂
        rest op h2 d

end

theorem resequenceOpsFrom_idBound :
    ∀ (k : Nat) (docs : List MenuItemDoc),
      opsIdBound (resequenceOpsFrom k docs) := by
  intro k docs
  induction docs generalizing k with
  | nil => intro op hop; cases hop
  | cons doc rest ih =>
    intro op hop
    rcases List.mem_cons.mp hop with rfl | hop'
    · exact ⟨⟨doc._id, fun d h => by simpa using h⟩, fun d => rfl⟩
    · exact ih (k + 1) op hop'

theorem insertionOps_idBound (req : Int) :
    ∀ (sibs : List MenuItemDoc) (ri : Int),
      opsIdBound (insertionOps req sibs ri) := by
  intro sibs
  induction sibs with
  | nil => intro ri op hop; cases hop
  | cons sib rest ih =>
    intro ri op hop
    simp only [insertionOps] at hop
    rcases List.mem_append.mp hop with h1 | h2
    · by_cases hc : sib.sortId ≠ (if ri = req then ri + 1 else ri)
      · rw [if_pos hc] at h1
        rcases List.mem_singleton.mp h1 with rfl
        exact ⟨⟨sib._id, fun d h => by simpa using h⟩, fun d => rfl⟩
      · rw [if_neg hc] at h1
        cases h1
    · exact ih _ op h2

theorem flatOpsFrom_idBound (domain : DomainEnum)
    (sub : StructuralSubtypeEnum) (state : StateEnum) (now : Nat) :
    ∀ (k : Nat) (ids : List Nat),
      opsIdBound (flatOpsFrom domain sub state now k ids) := by
  intro k ids
  induction ids generalizing k with
  | nil => intro op hop; cases hop
  | cons i rest ih =>
    intro op hop
    rcases List.mem_cons.mp hop with rfl | hop'
    · refine ⟨⟨i, fun d h => ?_⟩, fun d => rfl⟩
      simpa using (of_decide_eq_true h).1
    · exact ih (k + 1) op hop'

mutual

theorem buildItemUpdates_idBound (now : Nat) :
    ∀ item : HierarchicalReorderItem,
      opsIdBound (buildItemUpdates now item)
  | .node i sortId parentId children => by
    intro op hop
    simp only [buildItemUpdates] at hop
    rcases List.mem_cons.mp hop with rfl | hop'
    · refine ⟨⟨i, fun d h => by simpa using h⟩, fun d => ?_⟩
      cases parentId <;> rfl
    · exact buildHierarchicalUpdates_idBound now children op hop'

theorem buildHierarchicalUpdates_idBound (now : Nat) :
    ∀ items : List HierarchicalReorderItem,
      opsIdBound (buildHierarchicalUpdates now items)
  | [] => by intro op hop; simp [buildHierarchicalUpdates] at hop
  | item :: rest => by
    intro op hop
    rcases List.mem_append.mp (by simpa [buildHierarchicalUpdates] using hop)
      with h1 | h2
    · exact buildItemUpdates_idBound now item op h1
    · exact buildHierarchicalUpdates_idBound now rest op h2

end

theorem storeIds_bulkWrite (ops : List BulkOp) (store : Store)
    (h : opsPreserve (fun d => d._id) ops) :
    storeIds (bulkWrite ops store) = storeIds store :=
  bulkWrite_map_proj (fun d => d._id) ops store h

theorem storeIds_closeGap (store : Store) (existing : MenuItemDoc)
    (dto : SortMenuItemDto) :
    storeIds (closeGapStore store existing dto) = storeIds store := by
  unfold closeGapStore
  split
  · exact storeIds_bulkWrite _ _
      (resequenceOpsFrom_preserve (fun d => d._id) (fun d v => rfl) 0 _)
  · rfl

/-- Both commit branches are one and the same `$set` of the payload's
parent option. -/
theorem commitMovedItem_eq (s : Store) (existing : MenuItemDoc)
    (dto : SortMenuItemDto) (req : Int) (now : Nat) :
    commitMovedItem s existing dto req now =
      updateFirst (fun d => d._id = existing._id)
        (fun d => { d with parentId := dto.parentId, sortId := req,
                           lastUpdated := now, version := d.version + 1 })
        s := by
  unfold commitMovedItem
  cases h : dto.parentId <;> simp [h]

theorem storeIds_commit (s : Store) (existing : MenuItemDoc)
    (dto : SortMenuItemDto) (req : Int) (now : Nat) :
    storeIds (commitMovedItem s existing dto req now) = storeIds s := by
  rw [commitMovedItem_eq]
  unfold storeIds
  apply updateFirst_map_proj
  intro d
  rfl

theorem storeIds_movePipeline (store : Store) (existing : MenuItemDoc)
    (dto : SortMenuItemDto) (now : Nat) :
    storeIds (movePipeline store existing dto now) = storeIds store := by
  unfold movePipeline
  rw [storeIds_commit, storeIds_bulkWrite _ _
    (insertionOps_preserve (fun d => d._id) (fun d v => rfl) _ _ _),
    storeIds_closeGap]

theorem reorderMenuItems_snd {store : Store} {dto : SortMenuItemDto}
    {existing : MenuItemDoc} (now : Nat)
    (hfind : findById dto._id store = some existing) :
    (reorderMenuItems store dto now).2 =
      movePipeline store existing dto now := by
  simp only [reorderMenuItems, hfind]
  cases findById existing._id (movePipeline store existing dto now) <;> rfl

theorem reorderMenuItems_isOk {store : Store} {dto : SortMenuItemDto}
    {existing : MenuItemDoc} (now : Nat)
    (hfind : findById dto._id store = some existing) :
    (reorderMenuItems store dto now).1.isOk = true := by
  simp only [reorderMenuItems, hfind]
  have hmem : existing._id ∈ storeIds (movePipeline store existing dto now) := by
    rw [storeIds_movePipeline]
    exact List.mem_map_of_mem (fun d => d._id) (findById_mem hfind).1
  cases h : findById existing._id (movePipeline store existing dto now) with
  | none => exact absurd (findById_eq_none_iff.mp h) (by simpa using hmem)
  | some u => rfl

theorem closeGap_map_proj {α : Type} (proj : MenuItemDoc → α)
    (hproj : ∀ d v, proj { d with sortId := v } = proj d) (store : Store)
    (existing : MenuItemDoc) (dto : SortMenuItemDto) :
    (closeGapStore store existing dto).map proj = store.map proj := by
  unfold closeGapStore
  split
  · exact bulkWrite_map_proj proj _ _
      (resequenceOpsFrom_preserve proj hproj 0 _)
  · rfl

theorem update_result (store : Store) (id : Nat) (dto : UpdateMenuItemDto)
    (now : Nat) (d : MenuItemDoc) (hnd : (storeIds store).Nodup)
    (hfind : findById id store = some d) :
    update store id dto now =
      (.ok (applyUpdateDto dto now d),
       updateFirst (fun e => e._id = id) (applyUpdateDto dto now) store) := by
  have hid : d._id = id := (findById_mem hfind).2
  have hg : ∀ e : MenuItemDoc,
      ((fun e => if decide (e._id = id) = true then applyUpdateDto dto now e
        else e) e)._id = e._id := by
    intro e
    by_cases h : e._id = id <;> simp [h, applyUpdateDto]
  have hmap : updateFirst (fun e => decide (e._id = id))
      (applyUpdateDto dto now) store =
      store.map fun e => if decide (e._id = id) = true then
        applyUpdateDto dto now e else e :=
    updateFirst_eq_map _ _ id (fun e h => by simpa using h) store hnd
  have hfound : findById id (updateFirst (fun e => decide (e._id = id))
      (applyUpdateDto dto now) store) = some (applyUpdateDto dto now d) := by
    rw [hmap, findById_map hg, hfind]
    simp [hid]
  simp only [update, hfound]

theorem move_version_map (store : Store) (dto : SortMenuItemDto) (now : Nat)
    (existing : MenuItemDoc) (hnd : (storeIds store).Nodup)
    (hfind : findById dto._id store = some existing) :
    ((reorderMenuItems store dto now).2.map fun d => (d._id, d.version)) =
      store.map fun d =>
        (d._id, if d._id = existing._id then d.version + 1 else d.version) := by
  rw [reorderMenuItems_snd now hfind]
  unfold movePipeline
  rw [commitMovedItem_eq]
  have hnd2 : (storeIds (bulkWrite (insertionOps
      (moveRequestedPosition store existing dto)
      (targetSiblings (closeGapStore store existing dto) existing dto) 1)
      (closeGapStore store existing dto))).Nodup := by
    rw [storeIds_bulkWrite _ _
      (insertionOps_preserve (fun d => d._id) (fun d v => rfl) _ _ _),
      storeIds_closeGap]
    exact hnd
  rw [updateFirst_eq_map _ _ existing._id (fun e h => by simpa using h) _
    hnd2, List.map_map]
  rw [List.map_congr_left (g := fun d =>
    (d._id, if d._id = existing._id then d.version + 1 else d.version))
    (fun d _ => by by_cases h : d._id = existing._id <;> simp [h])]
  rw [bulkWrite_map_proj
    (fun d => (d._id, if d._id = existing._id then d.version + 1
      else d.version)) _ _
    (insertionOps_preserve
      (fun d => (d._id, if d._id = existing._id then d.version + 1
        else d.version)) (fun d v => rfl) _ _ _)]
  exact closeGap_map_proj
    (fun d => (d._id, if d._id = existing._id then d.version + 1
      else d.version)) (fun d v => rfl) store existing dto

theorem flat_version_map (store : Store) (domain : DomainEnum)
    (sub : StructuralSubtypeEnum) (state : StateEnum) (ids : List Nat)
    (now : Nat) :
    ((reorderMenuItemsFlat store domain sub state ids now).2.map
      fun d => d.version) = store.map fun d => d.version := by
  simp only [reorderMenuItemsFlat]
  exact bulkWrite_map_proj _ _ _
    (flatOpsFrom_preserve (fun d => d.version) domain sub state now
      (fun d v => rfl) 0 ids)

theorem hier_version_map (store : Store) (domain : DomainEnum)
    (sub : StructuralSubtypeEnum) (state : StateEnum)
    (items : List HierarchicalReorderItem) (now : Nat) :
    ((reorderMenuItemsHierarchical store domain sub state items now).2.map
      fun d => d.version) = store.map fun d => d.version := by
  simp only [reorderMenuItemsHierarchical]
  split
  · rfl
  · split
    · exact bulkWrite_map_proj _ _ _
        (buildHierarchicalUpdates_preserve (fun d => d.version) now
          (fun d v => rfl) (fun d v p => rfl) items)
    · rfl

/-! ### Claim C6 -/

/-- C6 is false on the code: the flat reorder is a mutating write (it
moves the item's `sortId` from 5 to 0) yet leaves `version` at 1, because
`Model.bulkWrite` does not run the version-bumping query middleware. -/
theorem reorderFlat_write_keeps_version :
    (mkDoc 1 5 none .ADMIN .HEADER .FULL).sortId = 5 ∧
    (mkDoc 1 5 none .ADMIN .HEADER .FULL).version = 1 ∧
    ((reorderMenuItemsFlat [mkDoc 1 5 none .ADMIN .HEADER .FULL] .ADMIN
        .HEADER .FULL [1] 9).2.map fun d => (d.sortId, d.version)) =
      [(0, 1)] := by
  decide

/-- C6 (amended).  `version` is bumped, by exactly 1, by every write that
goes through `findOneAndUpdate` query middleware — field updates (hence
archive/unarchive) and the move's final commit — while the bulk
resequencing writes of move, flat reorder and hierarchical reorder bypass
middleware and leave every document's `version` unchanged. -/
theorem version_bump_characterisation :
    (∀ (store : Store) (id : Nat) (dto : UpdateMenuItemDto) (now : Nat)
        (d : MenuItemDoc), (storeIds store).Nodup →
        findById id store = some d →
        update store id dto now =
          (.ok (applyUpdateDto dto now d),
           updateFirst (fun e => e._id = id) (applyUpdateDto dto now)
             store) ∧
        (applyUpdateDto dto now d).version = d.version + 1) ∧
    (∀ (store : Store) (dto : SortMenuItemDto) (now : Nat)
        (existing : MenuItemDoc), (storeIds store).Nodup →
        findById dto._id store = some existing →
        ((reorderMenuItems store dto now).2.map
          fun d => (d._id, d.version)) =
          store.map fun d =>
            (d._id,
             if d._id = existing._id then d.version + 1 else d.version)) ∧
    (∀ (store : Store) (domain : DomainEnum) (sub : StructuralSubtypeEnum)
        (state : StateEnum) (ids : List Nat) (now : Nat),
        ((reorderMenuItemsFlat store domain sub state ids now).2.map
          fun d => d.version) = store.map fun d => d.version) ∧
    (∀ (store : Store) (domain : DomainEnum) (sub : StructuralSubtypeEnum)
        (state : StateEnum) (items : List HierarchicalReorderItem)
        (now : Nat),
        ((reorderMenuItemsHierarchical store domain sub state items
            now).2.map fun d => d.version) =
          store.map fun d => d.version) :=
  ⟨fun store id dto now d hnd hfind =>
    ⟨update_result store id dto now d hnd hfind, rfl⟩,
   fun store dto now existing hnd hfind =>
    move_version_map store dto now existing hnd hfind,
   fun store domain sub state ids now =>
    flat_version_map store domain sub state ids now,
   fun store domain sub state items now =>
    hier_version_map store domain sub state items now⟩

/-- Witness for C6 (amended): archiving item 1 bumps its version from 1 to
2, and a same-group move of item 1 bumps exactly the moved item's version. -/
theorem version_bump_characterisation_witness :
    (update [mkDoc 1 1 none .ADMIN .HEADER .FULL] 1
        { archived := some true } 5 =
      (.ok (applyUpdateDto { archived := some true } 5
         (mkDoc 1 1 none .ADMIN .HEADER .FULL)),
       updateFirst (fun e => e._id = 1)
         (applyUpdateDto { archived := some true } 5)
         [mkDoc 1 1 none .ADMIN .HEADER .FULL]) ∧
      (applyUpdateDto { archived := some true } 5
        (mkDoc 1 1 none .ADMIN .HEADER .FULL)).version =
        (mkDoc 1 1 none .ADMIN .HEADER .FULL).version + 1) ∧
    ((reorderMenuItems [mkDoc 1 1 none .ADMIN .HEADER .FULL]
        ⟨1, 1, none⟩ 5).2.map fun d => (d._id, d.version)) =
      [mkDoc 1 1 none .ADMIN .HEADER .FULL].map fun d =>
        (d._id,
         if d._id = (mkDoc 1 1 none .ADMIN .HEADER .FULL)._id then
           d.version + 1
         else d.version) :=
  ⟨version_bump_characterisation.1 [mkDoc 1 1 none .ADMIN .HEADER .FULL] 1
    { archived := some true } 5 (mkDoc 1 1 none .ADMIN .HEADER .FULL)
    (by decide) (by decide),
   version_bump_characterisation.2.1 [mkDoc 1 1 none .ADMIN .HEADER .FULL]
    ⟨1, 1, none⟩ 5 (mkDoc 1 1 none .ADMIN .HEADER .FULL)
    (by decide) (by decide)⟩

/-! ### Claim C5 -/

/-- C5 is false on the code: id 2 exists in the partition but is missing
from the flattened tree, yet the call succeeds and writes (item 1 moves to
`sortId` 5), because validation only checks that every tree id exists in
the partition, not that the tree covers it. -/
theorem reorderTree_accepts_incomplete_tree :
    (2 ∈ storeIds [mkDoc 1 1 none .ADMIN .HEADER .FULL,
      mkDoc 2 2 none .ADMIN .HEADER .FULL]) ∧
    (2 ∉ extractAllIds [.node 1 5 none []]) ∧
    (reorderMenuItemsHierarchical
      [mkDoc 1 1 none .ADMIN .HEADER .FULL,
       mkDoc 2 2 none .ADMIN .HEADER .FULL] .ADMIN .HEADER .FULL
      [.node 1 5 none []] 9).1.isOk = true ∧
    (reorderMenuItemsHierarchical
      [mkDoc 1 1 none .ADMIN .HEADER .FULL,
       mkDoc 2 2 none .ADMIN .HEADER .FULL] .ADMIN .HEADER .FULL
      [.node 1 5 none []] 9).2 ≠
      [mkDoc 1 1 none .ADMIN .HEADER .FULL,
       mkDoc 2 2 none .ADMIN .HEADER .FULL] := by
  decide

/-- C5 (amended).  `reorderTree` is rejected with BadRequest — and nothing
is written — exactly in the other direction: when some id of the flattened
tree has no document in the given partition (the count of matching
partition documents then falls short of the flattened id count).  A tree
that merely omits ids present in the partition is accepted. -/
theorem reorderTree_rejects_unknown_ids (store : Store)
    (domain : DomainEnum) (sub : StructuralSubtypeEnum) (state : StateEnum)
    (items : List HierarchicalReorderItem) (now : Nat)
    (hnd : (storeIds store).Nodup)
    (hex : ∃ i ∈ extractAllIds items, ∀ d ∈ store, d._id = i →
      ¬(d.domain = domain ∧ d.structuralSubtype = sub ∧ d.state = state)) :
    reorderMenuItemsHierarchical store domain sub state items now =
      (.error .BadRequest, store) := by
  obtain ⟨i, hi, hno⟩ := hex
  have hlt : (store.filter fun d =>
      decide ((extractAllIds items).contains d._id ∧ d.domain = domain ∧
        d.structuralSubtype = sub ∧ d.state = state)).length <
      (extractAllIds items).length := by
    set F := store.filter fun d =>
      decide ((extractAllIds items).contains d._id ∧ d.domain = domain ∧
        d.structuralSubtype = sub ∧ d.state = state) with hF
    have hndF : (storeIds F).Nodup := by
      refine List.Nodup.sublist ?_ hnd
      unfold storeIds
      rw [hF]
      exact List.Sublist.map (fun d => d._id)
        (List.filter_sublist (l := store))
    have hsubset : storeIds F ⊆ (extractAllIds items).erase i := by
      intro a ha
      obtain ⟨d, hdF, rfl⟩ := List.mem_map.mp ha
      have hd := List.of_mem_filter hdF
      have hd' := of_decide_eq_true hd
      have hmem : d._id ∈ extractAllIds items := by
        have := hd'.1
        simpa [List.contains_eq_any_beq, List.any_eq_true] using
          List.elem_iff.mp this
      have hne : d._id ≠ i := by
        intro hcon
        exact hno d (List.mem_of_mem_filter hdF) hcon hd'.2
      exact (List.mem_erase_of_ne hne).mpr hmem
    have hle : (storeIds F).length ≤ ((extractAllIds items).erase i).length :=
      (List.subperm_of_subset hndF hsubset).length_le
    have herase : ((extractAllIds items).erase i).length =
        (extractAllIds items).length - 1 := List.length_erase_of_mem hi
    have hpos : 0 < (extractAllIds items).length := List.length_pos.mpr
      (List.ne_nil_of_mem hi)
    have hlenF : F.length = (storeIds F).length := by
      simp [storeIds]
    omega
  simp only [reorderMenuItemsHierarchical]
  rw [if_pos (by omega)]

/-- Witness for C5 (amended): a tree mentioning the unknown id 99 is
rejected and the store is untouched. -/
theorem reorderTree_rejects_unknown_ids_witness :
    reorderMenuItemsHierarchical [mkDoc 1 1 none .ADMIN .HEADER .FULL]
      .ADMIN .HEADER .FULL [.node 99 1 none []] 9 =
      (.error .BadRequest, [mkDoc 1 1 none .ADMIN .HEADER .FULL]) :=
  reorderTree_rejects_unknown_ids _ _ _ _ _ 9 (by decide)
    ⟨99, by decide, by decide⟩

/-! ### Claim C10 -/

theorem flatOpsFrom_append (domain : DomainEnum)
    (sub : StructuralSubtypeEnum) (state : StateEnum) (now : Nat) :
    ∀ (a b : List Nat) (k : Nat),
      flatOpsFrom domain sub state now k (a ++ b) =
        flatOpsFrom domain sub state now k a ++
          flatOpsFrom domain sub state now (k + a.length) b := by
  intro a
  induction a with
  | nil => intro b k; simp [flatOpsFrom]
  | cons i rest ih =>
    intro b k
    have harith : k + 1 + rest.length = k + (rest.length + 1) := by omega
    simp [flatOpsFrom, ih b (k + 1), harith]

/-- C10.  An id in the flat-reorder list with no matching document in the
given partition (nonexistent, or belonging elsewhere) never causes an
error: its conditional update matches nothing and is dropped, the updates
for the other ids are applied with their original indices, and the call
returns the partition's current ordered list. -/
theorem reorderFlat_skips_unmatched (store : Store) (domain : DomainEnum)
    (sub : StructuralSubtypeEnum) (state : StateEnum)
    (ids₁ ids₂ : List Nat) (x : Nat) (now : Nat)
    (hx : ∀ d ∈ store, ¬(d._id = x ∧ d.domain = domain ∧
      d.structuralSubtype = sub ∧ d.state = state)) :
    reorderMenuItemsFlat store domain sub state (ids₁ ++ x :: ids₂) now =
      (findByDomainStructuralSubtypeAndState
        (bulkWrite (flatOpsFrom domain sub state now 0 ids₁ ++
          flatOpsFrom domain sub state now (ids₁.length + 1) ids₂) store)
        domain sub state false,
       bulkWrite (flatOpsFrom domain sub state now 0 ids₁ ++
          flatOpsFrom domain sub state now (ids₁.length + 1) ids₂) store) := by
  have hskip : ∀ s₁ : Store,
      (∀ d ∈ s₁, (fun d => decide (d._id = x ∧ d.domain = domain ∧
        d.structuralSubtype = sub ∧ d.state = state)) d = false) →
      bulkWrite (flatOpsFrom domain sub state now ids₁.length (x :: ids₂)) s₁ =
        bulkWrite (flatOpsFrom domain sub state now (ids₁.length + 1) ids₂)
          s₁ := by
    intro s₁ hnone
    simp only [flatOpsFrom, bulkWrite, List.foldl_cons]
    rw [show updateFirst (fun d => decide (d._id = x ∧ d.domain = domain ∧
      d.structuralSubtype = sub ∧ d.state = state))
      (fun d => { d with sortId := (ids₁.length : Int), lastUpdated := now })
      s₁ = s₁ from updateFirst_of_no_match _ _ s₁ hnone]
  have hproj : ((bulkWrite (flatOpsFrom domain sub state now 0 ids₁)
      store).map fun d => (d._id, d.domain, d.structuralSubtype, d.state)) =
      store.map fun d => (d._id, d.domain, d.structuralSubtype, d.state) :=
    bulkWrite_map_proj _ _ _
      (flatOpsFrom_preserve
        (fun d => (d._id, d.domain, d.structuralSubtype, d.state))
        domain sub state now (fun d v => rfl) 0 ids₁)
  have hnone : ∀ d ∈ bulkWrite (flatOpsFrom domain sub state now 0 ids₁)
      store, (fun d => decide (d._id = x ∧ d.domain = domain ∧
        d.structuralSubtype = sub ∧ d.state = state)) d = false := by
    intro d hd
    have : (d._id, d.domain, d.structuralSubtype, d.state) ∈
        store.map fun d => (d._id, d.domain, d.structuralSubtype, d.state) := by
      rw [← hproj]
      exact List.mem_map_of_mem _ hd
    obtain ⟨e, he, hpe⟩ := List.mem_map.mp this
    have hxe := hx e he
    simp only [Prod.mk.injEq] at hpe
    simp only [decide_eq_false_iff_not]
    intro ⟨h1, h2, h3, h4⟩
    exact hxe ⟨hpe.1.trans h1, hpe.2.1.trans h2,
      hpe.2.2.1.trans h3, hpe.2.2.2.trans h4⟩
  simp only [reorderMenuItemsFlat, flatOps]
  rw [flatOpsFrom_append, bulkWrite_append]
  simp only [Nat.zero_add]
  rw [hskip _ hnone, ← bulkWrite_append]

/-- Witness for C10: id 99 matches nothing; the update for id 1 is still
applied. -/
theorem reorderFlat_skips_unmatched_witness :
    reorderMenuItemsFlat [mkDoc 1 1 none .ADMIN .HEADER .FULL] .ADMIN
      .HEADER .FULL ([1] ++ 99 :: []) 9 =
      (findByDomainStructuralSubtypeAndState
        (bulkWrite (flatOpsFrom .ADMIN .HEADER .FULL 9 0 [1] ++
          flatOpsFrom .ADMIN .HEADER .FULL 9 ([1].length + 1) [])
          [mkDoc 1 1 none .ADMIN .HEADER .FULL]) .ADMIN .HEADER .FULL
        false,
       bulkWrite (flatOpsFrom .ADMIN .HEADER .FULL 9 0 [1] ++
          flatOpsFrom .ADMIN .HEADER .FULL 9 ([1].length + 1) [])
          [mkDoc 1 1 none .ADMIN .HEADER .FULL]) :=
  reorderFlat_skips_unmatched [mkDoc 1 1 none .ADMIN .HEADER .FULL] .ADMIN
    .HEADER .FULL [1] [] 99 9 (by decide)

/-! ### Claim C4 -/

/-- The result of a move depends on the requested `sortId` only through
the normalised-and-clamped position. -/
theorem reorderMenuItems_sortId_congr (store : Store)
    (dto : SortMenuItemDto) (now : Nat) (existing : MenuItemDoc)
    (hfind : findById dto._id store = some existing) (s' : Int)
    (heq : clampPosition (max 1 s')
        (targetSiblings (closeGapStore store existing dto) existing
          dto).length = moveRequestedPosition store existing dto) :
    reorderMenuItems store { dto with sortId := s' } now =
      reorderMenuItems store dto now := by
  have hfind' : findById ({ dto with sortId := s' } :
      SortMenuItemDto)._id store = some existing := hfind
  have hpipe : movePipeline store existing { dto with sortId := s' } now =
      movePipeline store existing dto now := by
    show commitMovedItem
        (bulkWrite (insertionOps (clampPosition (max 1 s')
            (targetSiblings (closeGapStore store existing dto) existing
              dto).length)
          (targetSiblings (closeGapStore store existing dto) existing dto) 1)
          (closeGapStore store existing dto))
        existing dto (clampPosition (max 1 s')
          (targetSiblings (closeGapStore store existing dto) existing
            dto).length) now =
      movePipeline store existing dto now
    rw [heq]
    rfl
  simp only [reorderMenuItems, hfind, hfind', hpipe]

/-- C4.  Clamping of the requested position: a request `≤ 0` behaves like
a request of 1; a request beyond `N + 1` (destination sibling count `N`)
behaves like `N + 1`; normalise-and-clamp is idempotent; and an
out-of-range position is never rejected — the move still succeeds. -/
theorem move_clamping (store : Store) (dto : SortMenuItemDto) (now : Nat)
    (existing : MenuItemDoc)
    (hfind : findById dto._id store = some existing) :
    (dto.sortId ≤ 0 →
      reorderMenuItems store dto now =
        reorderMenuItems store { dto with sortId := 1 } now) ∧
    (dto.sortId > ((targetSiblings (closeGapStore store existing dto)
        existing dto).length : Int) + 1 →
      reorderMenuItems store dto now =
        reorderMenuItems store
          { dto with sortId := ((targetSiblings (closeGapStore store
              existing dto) existing dto).length : Int) + 1 } now) ∧
    (∀ (p : Int) (n : Nat),
      clampPosition (max 1 (clampPosition (max 1 p) n)) n =
        clampPosition (max 1 p) n) ∧
    (reorderMenuItems store dto now).1.isOk = true := by
  refine ⟨?_, ?_, ?_, reorderMenuItems_isOk now hfind⟩
  · intro hle
    refine (reorderMenuItems_sortId_congr store dto now existing hfind 1
      ?_).symm
    unfold moveRequestedPosition clampPosition
    have h1 : max 1 (1 : Int) = 1 := by omega
    have h2 : max 1 dto.sortId = 1 := by omega
    rw [h1, h2]
  · intro hgt
    refine (reorderMenuItems_sortId_congr store dto now existing hfind _
      ?_).symm
    unfold moveRequestedPosition clampPosition
    split <;> split <;> omega
  · intro p n
    unfold clampPosition
    split <;> split <;> omega

/-- Witness for C4 on the group `{a:1, b:2, c:3}`: moving b with request 0
equals request 1; request 99 equals request `N + 1`; idempotence at
`p = 99, n = 2`; and the call succeeds. -/
theorem move_clamping_witness :
    (reorderMenuItems [mkDoc 1 1 none .ADMIN .HEADER .FULL,
        mkDoc 2 2 none .ADMIN .HEADER .FULL,
        mkDoc 3 3 none .ADMIN .HEADER .FULL] ⟨2, 0, none⟩ 7 =
      reorderMenuItems [mkDoc 1 1 none .ADMIN .HEADER .FULL,
        mkDoc 2 2 none .ADMIN .HEADER .FULL,
        mkDoc 3 3 none .ADMIN .HEADER .FULL]
        { (⟨2, 0, none⟩ : SortMenuItemDto) with sortId := 1 } 7) ∧
    (reorderMenuItems [mkDoc 1 1 none .ADMIN .HEADER .FULL,
        mkDoc 2 2 none .ADMIN .HEADER .FULL,
        mkDoc 3 3 none .ADMIN .HEADER .FULL] ⟨2, 99, none⟩ 7 =
      reorderMenuItems [mkDoc 1 1 none .ADMIN .HEADER .FULL,
        mkDoc 2 2 none .ADMIN .HEADER .FULL,
        mkDoc 3 3 none .ADMIN .HEADER .FULL]
        { (⟨2, 99, none⟩ : SortMenuItemDto) with sortId :=
            ((targetSiblings (closeGapStore
              [mkDoc 1 1 none .ADMIN .HEADER .FULL,
               mkDoc 2 2 none .ADMIN .HEADER .FULL,
               mkDoc 3 3 none .ADMIN .HEADER .FULL]
              (mkDoc 2 2 none .ADMIN .HEADER .FULL) ⟨2, 99, none⟩)
              (mkDoc 2 2 none .ADMIN .HEADER .FULL)
              ⟨2, 99, none⟩).length : Int) + 1 } 7) ∧
    (∀ (p : Int) (n : Nat),
      clampPosition (max 1 (clampPosition (max 1 p) n)) n =
        clampPosition (max 1 p) n) ∧
    (reorderMenuItems [mkDoc 1 1 none .ADMIN .HEADER .FULL,
        mkDoc 2 2 none .ADMIN .HEADER .FULL,
        mkDoc 3 3 none .ADMIN .HEADER .FULL] ⟨2, 0, none⟩ 7).1.isOk =
      true :=
  ⟨(move_clamping _ ⟨2, 0, none⟩ 7 (mkDoc 2 2 none .ADMIN .HEADER .FULL)
      (by decide)).1 (by decide),
   (move_clamping _ ⟨2, 99, none⟩ 7 (mkDoc 2 2 none .ADMIN .HEADER .FULL)
      (by decide)).2.1 (by decide),
   (move_clamping [mkDoc 1 1 none .ADMIN .HEADER .FULL,
      mkDoc 2 2 none .ADMIN .HEADER .FULL,
      mkDoc 3 3 none .ADMIN .HEADER .FULL] ⟨2, 0, none⟩ 7
      (mkDoc 2 2 none .ADMIN .HEADER .FULL) (by decide)).2.2.1,
   (move_clamping _ ⟨2, 0, none⟩ 7 (mkDoc 2 2 none .ADMIN .HEADER .FULL)
      (by decide)).2.2.2⟩

/-! ### Sorted fetch and dense ranges -/

theorem sortBySortId_perm (l : List MenuItemDoc) :
    List.Perm (sortBySortId l) l :=
  List.perm_insertionSort sortIdLE l

theorem sortBySortId_sorted (l : List MenuItemDoc) :
    List.Sorted sortIdLE (sortBySortId l) :=
  List.sorted_insertionSort sortIdLE l

theorem map_sortId_sorted {l : List MenuItemDoc}
    (h : List.Sorted sortIdLE l) :
    List.Sorted (· ≤ ·) (l.map fun d => d.sortId) :=
  List.Pairwise.map _ (fun a b hab => hab) h

theorem map_sortId_eq_of_perm_sorted {l : List MenuItemDoc} {K : List Int}
    (hperm : List.Perm (l.map fun d => d.sortId) K)
    (hl : List.Sorted sortIdLE l)
    (hK : List.Sorted (· ≤ ·) K) : (l.map fun d => d.sortId) = K :=
  List.eq_of_perm_of_sorted hperm (map_sortId_sorted hl) hK

theorem posRangeFrom_length (s : Int) (n : Nat) :
    (posRangeFrom s n).length = n := by
  induction n generalizing s with
  | zero => rfl
  | succ n ih => simp [posRangeFrom, ih]

theorem posRangeFrom_get (s : Int) :
    ∀ (n : Nat) (j : Nat) (hj : j < (posRangeFrom s n).length),
      (posRangeFrom s n).get ⟨j, hj⟩ = s + j := by
  intro n
  induction n generalizing s with
  | zero => intro j hj; simp [posRangeFrom] at hj
  | succ n ih =>
    intro j hj
    cases j with
    | zero => simp [posRangeFrom]
    | succ j =>
      have := ih (s + 1) j (by
        simpa [posRangeFrom, posRangeFrom_length] using
          Nat.lt_of_succ_lt_succ (by simpa [posRangeFrom,
            posRangeFrom_length] using hj))
      simp only [posRangeFrom, List.get_cons_succ, this]
      push_cast
      omega

theorem posRangeFrom_mem {s v : Int} :
    ∀ {n : Nat}, v ∈ posRangeFrom s n → s ≤ v ∧ v < s + n := by
  intro n
  induction n generalizing s with
  | zero => intro h; simp [posRangeFrom] at h
  | succ n ih =>
    intro h
    simp only [posRangeFrom, List.mem_cons] at h
    rcases h with rfl | h'
    · constructor <;> omega
    · have := ih h'
      push_cast at this ⊢
      omega

theorem posRangeFrom_succ_append (s : Int) (n : Nat) :
    posRangeFrom s (n + 1) = posRangeFrom s n ++ [s + n] := by
  induction n generalizing s with
  | zero => simp [posRangeFrom]
  | succ n ih =>
    have h1 : posRangeFrom s (n + 1 + 1) = s :: posRangeFrom (s + 1) (n + 1) :=
      rfl
    have h2 : posRangeFrom s (n + 1) = s :: posRangeFrom (s + 1) n := rfl
    rw [h1, ih (s + 1), h2, List.cons_append]
    have : s + 1 + (n : Int) = s + ((n : Nat) + 1 : Nat) := by
      push_cast
      omega
    rw [this]

theorem posRangeFrom_sorted (s : Int) (n : Nat) :
    List.Sorted (· ≤ ·) (posRangeFrom s n) := by
  induction n generalizing s with
  | zero => simp [posRangeFrom]
  | succ n ih =>
    simp only [posRangeFrom, List.sorted_cons]
    exact ⟨fun v hv => by have := posRangeFrom_mem hv; omega, ih (s + 1)⟩

theorem posRangeFrom_nodup (s : Int) (n : Nat) :
    (posRangeFrom s n).Nodup := by
  induction n generalizing s with
  | zero => simp [posRangeFrom]
  | succ n ih =>
    simp only [posRangeFrom, List.nodup_cons]
    exact ⟨fun hv => by have := posRangeFrom_mem hv; omega, ih (s + 1)⟩

/-! ### The insertion walk's positions -/

/-- The position the walk assigns to the destination sibling at 0-based
index `j`, when the running index starts at `ri`. -/
def walkPosFrom (req ri : Int) (j : Nat) : Int :=
  if ri + j < req then ri + j
  else if req < ri then ri + j
  else ri + j + 1

theorem walkPosFrom_zero (req ri : Int) :
    walkPosFrom req ri 0 = if ri = req then ri + 1 else ri := by
  unfold walkPosFrom
  split_ifs <;> omega

theorem walkPosFrom_succ (req ri : Int) (j : Nat) :
    walkPosFrom req ri (j + 1) =
      walkPosFrom req ((if ri = req then ri + 1 else ri) + 1) j := by
  unfold walkPosFrom
  push_cast
  split_ifs <;> omega

/-! ### Pointwise evaluation of the phase operations -/

theorem chainOps_resequence_skip (d : MenuItemDoc) :
    ∀ (docs : List MenuItemDoc) (k : Nat),
      d._id ∉ docs.map (fun e => e._id) →
      chainOps (resequenceOpsFrom k docs) d = d := by
  intro docs
  induction docs with
  | nil => intro k _; rfl
  | cons doc rest ih =>
    intro k hni
    simp only [List.map_cons, List.mem_cons, not_or] at hni
    rw [resequenceOpsFrom, chainOps_cons]
    simp only [decide_eq_true_eq, hni.1, if_false]
    exact ih (k + 1) hni.2

theorem chainOps_insertion_skip (req : Int) (d : MenuItemDoc) :
    ∀ (sibs : List MenuItemDoc) (ri : Int),
      d._id ∉ sibs.map (fun e => e._id) →
      chainOps (insertionOps req sibs ri) d = d := by
  intro sibs
  induction sibs with
  | nil => intro ri _; rfl
  | cons sib rest ih =>
    intro ri hni
    simp only [List.map_cons, List.mem_cons, not_or] at hni
    simp only [insertionOps]
    rw [chainOps_append]
    have hhead : chainOps
        (if sib.sortId ≠ (if ri = req then ri + 1 else ri) then
          [((fun e => e._id = sib._id,
             fun e => { e with sortId := if ri = req then ri + 1 else ri }) :
            BulkOp)]
        else ([] : List BulkOp)) d = d := by
      by_cases hc : sib.sortId ≠ (if ri = req then ri + 1 else ri)
      · rw [if_pos hc, chainOps_cons]
        simp only [decide_eq_true_eq, hni.1, if_false]
        rfl
      · rw [if_neg hc]
        rfl
    rw [hhead]
    exact ih _ hni.2

theorem chainOps_resequence_eval :
    ∀ (docs : List MenuItemDoc) (k : Nat) (j : Nat)
      (hj : j < docs.length),
      (docs.map (fun e => e._id)).Nodup →
      chainOps (resequenceOpsFrom k docs) (docs.get ⟨j, hj⟩) =
        { docs.get ⟨j, hj⟩ with sortId := (k : Int) + (j : Int) + 1 } := by
  intro docs
  induction docs with
  | nil => intro k j hj; simp at hj
  | cons doc rest ih =>
    intro k j hj hnd
    simp only [List.map_cons, List.nodup_cons] at hnd
    cases j with
    | zero =>
      rw [resequenceOpsFrom, chainOps_cons]
      simp only [List.get_cons_zero, decide_eq_true_eq, if_pos rfl]
      rw [chainOps_resequence_skip _ rest (k + 1) (by simpa using hnd.1)]
      simp
    | succ j =>
      have hj' : j < rest.length := Nat.lt_of_succ_lt_succ hj
      have hne : (rest.get ⟨j, hj'⟩)._id ≠ doc._id := by
        intro hc
        exact hnd.1 (hc ▸ List.mem_map_of_mem (fun e => e._id)
          (rest.get_mem j hj'))
      rw [resequenceOpsFrom, chainOps_cons]
      simp only [List.get_cons_succ, decide_eq_true_eq, hne, if_false]
      rw [ih (k + 1) j hj' hnd.2]
      have : (((k + 1 : Nat)) : Int) + (j : Int) + 1 =
          (k : Int) + (((j + 1 : Nat)) : Int) + 1 := by push_cast; omega
      rw [this]

theorem chainOps_insertion_eval (req : Int) :
    ∀ (sibs : List MenuItemDoc) (ri : Int) (j : Nat)
      (hj : j < sibs.length),
      (sibs.map (fun e => e._id)).Nodup →
      chainOps (insertionOps req sibs ri) (sibs.get ⟨j, hj⟩) =
        { sibs.get ⟨j, hj⟩ with sortId := walkPosFrom req ri j } := by
  intro sibs
  induction sibs with
  | nil => intro ri j hj; simp at hj
  | cons sib rest ih =>
    intro ri j hj hnd
    simp only [List.map_cons, List.nodup_cons] at hnd
    cases j with
    | zero =>
      have hget : (sib :: rest).get ⟨0, hj⟩ = sib := rfl
      rw [hget]
      simp only [insertionOps]
      rw [chainOps_append, walkPosFrom_zero]
      by_cases hne : sib.sortId ≠ (if ri = req then ri + 1 else ri)
      · rw [if_pos hne, chainOps_cons]
        simp only [decide_eq_true_eq, if_pos rfl]
        rw [chainOps_insertion_skip req _ rest _ (by simpa using hnd.1)]
        rfl
      · rw [if_neg hne]
        push_neg at hne
        rw [show chainOps ([] : List BulkOp) sib = sib from rfl]
        rw [chainOps_insertion_skip req _ rest _ (by simpa using hnd.1)]
        rw [← hne]
    | succ j =>
      have hj' : j < rest.length := Nat.lt_of_succ_lt_succ hj
      have hne : (rest.get ⟨j, hj'⟩)._id ≠ sib._id := by
        intro hc
        exact hnd.1 (hc ▸ List.mem_map_of_mem (fun e => e._id)
          (rest.get_mem j hj'))
      simp only [insertionOps, List.get_cons_succ]
      rw [chainOps_append]
      have hhead : chainOps
          (if sib.sortId ≠ (if ri = req then ri + 1 else ri) then
            [((fun e => e._id = sib._id,
               fun e => { e with sortId := if ri = req then ri + 1 else ri }) :
              BulkOp)]
          else ([] : List BulkOp)) (rest.get ⟨j, hj'⟩) =
          rest.get ⟨j, hj'⟩ := by
        by_cases hc : sib.sortId ≠ (if ri = req then ri + 1 else ri)
        · rw [if_pos hc, chainOps_cons]
          simp only [decide_eq_true_eq, hne, if_false]
          rfl
        · rw [if_neg hc]
          rfl
      rw [hhead, ih _ j hj' hnd.2, walkPosFrom_succ]

theorem chainOps_preserve_proj {α : Type} {proj : MenuItemDoc → α}
    {ops : List BulkOp} (h : opsPreserve proj ops) (d : MenuItemDoc) :
    proj (chainOps ops d) = proj d := by
  induction ops generalizing d with
  | nil => rfl
  | cons op ops ih =>
    rw [chainOps_cons]
    have h1 : ∀ e, proj (op.2 e) = proj e := fun e => h op (by simp) e
    have h2 : opsPreserve proj ops := fun op' hm e => h op' (by simp [hm]) e
    by_cases hc : op.1 d
    · rw [if_pos hc, ih h2, h1]
    · rw [if_neg hc, ih h2]

theorem closeGapStore_eq {store : Store} (existing : MenuItemDoc)
    (dto : SortMenuItemDto) (hnd : (storeIds store).Nodup) :
    closeGapStore store existing dto =
      if parentChanged existing dto then
        store.map (chainOps (resequenceOps (oldSiblings store existing)))
      else store := by
  unfold closeGapStore
  split
  · exact bulkWrite_eq_map _ (resequenceOpsFrom_idBound 0 _) store hnd
  · rfl

theorem fetched_mem {p : MenuItemDoc → Bool} {store : Store}
    {d : MenuItemDoc} (h : d ∈ sortBySortId (store.filter p)) :
    d ∈ store ∧ p d = true := by
  have hmem : d ∈ store.filter p :=
    (sortBySortId_perm (store.filter p)).mem_iff.mp h
  exact ⟨List.mem_of_mem_filter hmem, List.of_mem_filter hmem⟩

theorem fetched_ids_nodup (p : MenuItemDoc → Bool) (store : Store)
    (hnd : (storeIds store).Nodup) :
    ((sortBySortId (store.filter p)).map fun d => d._id).Nodup := by
  have hperm : List.Perm
      ((sortBySortId (store.filter p)).map fun d => d._id)
      ((store.filter p).map fun d => d._id) :=
    (sortBySortId_perm (store.filter p)).map fun d => d._id
  rw [hperm.nodup_iff]
  exact List.Nodup.sublist
    (List.Sublist.map (fun d => d._id) (List.filter_sublist (l := store)))
    hnd

theorem parentMatches_parentId {pid : Option Nat} {d : MenuItemDoc}
    (h : parentMatches pid d = true) : d.parentId = pid := by
  cases pid <;> simpa [parentMatches] using h

theorem buildSiblingFilter_eq (existing : MenuItemDoc) (pid : Option Nat)
    (excl : Nat) (d : MenuItemDoc) :
    buildSiblingFilter existing pid excl d =
      (decide (d._id ≠ excl) && inSiblingGroup existing.domain
        existing.structuralSubtype existing.state pid d) := by
  refine Bool.eq_iff_iff.mpr ?_
  cases pid <;>
    simp [buildSiblingFilter, parentMatches, inSiblingGroup] <;> tauto

/-- Splitting a filter that accepts one pinned id besides a predicate that
always avoids that id. -/
theorem filter_or_perm {i : Nat} {q : MenuItemDoc → Bool} :
    ∀ {l : Store}, (storeIds l).Nodup → ∀ {d₀ : MenuItemDoc},
      findById i l = some d₀ → (∀ d, q d = true → d._id ≠ i) →
      List.Perm (l.filter fun d => decide (d._id = i) || q d)
        (d₀ :: l.filter q) := by
  intro l
  induction l with
  | nil => intro _ d₀ hf; simp [findById] at hf
  | cons e es ih =>
    intro hnd d₀ hf hq
    simp only [storeIds, List.map_cons, List.nodup_cons] at hnd
    by_cases he : e._id = i
    · have hd₀ : e = d₀ := by
        simp only [findById] at hf
        rw [List.find?_cons_of_pos _ (by simpa using he)] at hf
        exact Option.some_inj.mp hf
      subst hd₀
      have hqe : q e = false := by
        cases hqe : q e with
        | false => rfl
        | true => exact absurd he (hq e hqe)
      have htail : ∀ d ∈ es, (decide (d._id = i) || q d) = q d := by
        intro d hd
        have : d._id ≠ i := fun hc =>
          hnd.1 (he ▸ hc ▸ List.mem_map_of_mem (fun x => x._id) hd)
        simp [this]
      rw [List.filter_cons, List.filter_cons]
      rw [if_pos (by simp [he] : (decide (e._id = i) || q e) = true)]
      rw [if_neg (by simp [hqe] : ¬(q e = true))]
      rw [List.filter_congr htail]
    · have hf' : findById i es = some d₀ := by
        simp only [findById] at hf ⊢
        rwa [List.find?_cons_of_neg _ (by simpa using he)] at hf
      have hperm := ih hnd.2 hf' hq
      have hcond : (decide (e._id = i) || q e) = q e := by simp [he]
      rw [List.filter_cons, List.filter_cons, hcond]
      by_cases hqe : q e
      · rw [if_pos (by simp [hqe]), if_pos (by simp [hqe])]
        exact (hperm.cons e).trans (List.Perm.swap d₀ e _)
      · rw [if_neg (by simp [hqe]), if_neg (by simp [hqe])]
        exact hperm

theorem posRangeFrom_eq_map :
    ∀ (n : Nat) (s : Int),
      (List.range n).map (fun j : Nat => s + (j : Int)) = posRangeFrom s n := by
  intro n
  induction n with
  | zero => intro s; rfl
  | succ n ih =>
    intro s
    rw [List.range_succ_eq_map]
    simp only [List.map_cons, List.map_map]
    rw [posRangeFrom]
    congr 1
    · simp
    · rw [← ih (s + 1)]
      apply List.map_congr_left
      intro j _
      simp only [Function.comp_apply]
      push_cast
      omega

theorem clamp_bounds (p : Int) (n : Nat) :
    1 ≤ clampPosition (max 1 p) n ∧
      clampPosition (max 1 p) n ≤ (n : Int) + 1 := by
  unfold clampPosition
  split <;> omega

/-- The multiset of destination positions: the walk's assignments plus the
reserved slot are exactly `1..N+1`. -/
theorem walk_positions_perm (req : Int) :
    ∀ N : Nat, 1 ≤ req → req ≤ (N : Int) + 1 →
      List.Perm (req :: (List.range N).map fun j => walkPosFrom req 1 j)
        (posRangeFrom 1 (N + 1)) := by
  intro N
  induction N with
  | zero =>
    intro h1 h2
    have : req = 1 := by omega
    subst this
    rfl
  | succ N ih =>
    intro h1 h2
    by_cases hcase : req ≤ (N : Int) + 1
    · have hfN : walkPosFrom req 1 N = (N : Int) + 2 := by
        unfold walkPosFrom
        split_ifs <;> omega
      rw [List.range_succ, List.map_append, List.map_singleton, hfN]
      have hstep : List.Perm
          (req :: ((List.range N).map (fun j => walkPosFrom req 1 j) ++
            [(N : Int) + 2]))
          ((posRangeFrom 1 (N + 1)) ++ [(N : Int) + 2]) := by
        have := (ih h1 hcase).append_right [(N : Int) + 2]
        simpa using this
      refine hstep.trans ?_
      rw [posRangeFrom_succ_append 1 (N + 1)]
      have : (1 : Int) + ((N + 1 : Nat) : Int) = (N : Int) + 2 := by
        push_cast
        omega
      rw [this]
    · have hreq : req = (N : Int) + 2 := by omega
      have hmap : (List.range (N + 1)).map (fun j => walkPosFrom req 1 j) =
          (List.range (N + 1)).map (fun j : Nat => 1 + (j : Int)) := by
        apply List.map_congr_left
        intro j hj
        have hj' : j < N + 1 := List.mem_range.mp hj
        unfold walkPosFrom
        split_ifs <;> omega
      rw [hmap, posRangeFrom_eq_map (N + 1) 1, posRangeFrom_succ_append 1
        (N + 1)]
      have h1N : (1 : Int) + ((N + 1 : Nat) : Int) = req := by
        push_cast
        omega
      rw [h1N, hreq]
      exact (List.perm_append_singleton _ _).symm

theorem fetched_bsf_mem {existing : MenuItemDoc} {pid : Option Nat}
    {store : Store} {d : MenuItemDoc}
    (h : d ∈ sortBySortId (store.filter
      (buildSiblingFilter existing pid existing._id))) :
    d ∈ store ∧ d._id ≠ existing._id ∧
      inSiblingGroup existing.domain existing.structuralSubtype
        existing.state pid d = true := by
  obtain ⟨hmem, hp⟩ := fetched_mem h
  rw [buildSiblingFilter_eq] at hp
  simp only [Bool.and_eq_true, decide_eq_true_eq] at hp
  exact ⟨hmem, hp.1, hp.2⟩

theorem targetSiblings_facts {s1 : Store} {existing : MenuItemDoc}
    {dto : SortMenuItemDto} {d : MenuItemDoc}
    (h : d ∈ targetSiblings s1 existing dto) :
    d ∈ s1 ∧ d._id ≠ existing._id ∧
      inSiblingGroup existing.domain existing.structuralSubtype
        existing.state dto.parentId d = true :=
  fetched_bsf_mem h

theorem oldSiblings_facts {store : Store} {existing : MenuItemDoc}
    {d : MenuItemDoc} (h : d ∈ oldSiblings store existing) :
    d ∈ store ∧ d._id ≠ existing._id ∧
      inSiblingGroup existing.domain existing.structuralSubtype
        existing.state existing.parentId d = true :=
  fetched_bsf_mem h

theorem inSiblingGroup_eq_of_quad {d d' : MenuItemDoc}
    (h1 : d.domain = d'.domain) (h2 : d.structuralSubtype = d'.structuralSubtype)
    (h3 : d.state = d'.state) (h4 : d.parentId = d'.parentId)
    (dom : DomainEnum) (sub : StructuralSubtypeEnum) (st : StateEnum)
    (pid : Option Nat) :
    inSiblingGroup dom sub st pid d = inSiblingGroup dom sub st pid d' := by
  unfold inSiblingGroup
  rw [h1, h2, h3, h4]

/-- The gap-closing phase never touches the moved item itself. -/
theorem findById_closeGap (store : Store) (existing : MenuItemDoc)
    (dto : SortMenuItemDto) (hnd : (storeIds store).Nodup)
    (hmem : existing ∈ store) :
    findById existing._id (closeGapStore store existing dto) =
      some existing := by
  rw [closeGapStore_eq existing dto hnd]
  split
  · rw [@findById_map existing._id
      (chainOps (resequenceOps (oldSiblings store existing)))
      (fun d => chainOps_preserve_proj
        (resequenceOpsFrom_preserve (fun e => e._id) (fun e v => rfl) 0 _) d)
      store]
    rw [findById_of_mem_nodup hmem hnd, Option.map_some']
    rw [show chainOps (resequenceOps (oldSiblings store existing)) existing =
        existing from chainOps_resequence_skip existing _ 0 (by
      intro hc
      obtain ⟨e, he, heid⟩ := List.mem_map.mp hc
      exact (oldSiblings_facts he).2.1 heid)]
  · exact findById_of_mem_nodup hmem hnd

/-- Destination-group density: after the move pipeline, the destination
sibling group consists of the `N` fetched siblings plus the moved item and
its `sortId` multiset is exactly `{1, …, N+1}`. -/
theorem move_dest_group (store : Store) (dto : SortMenuItemDto) (now : Nat)
    (existing : MenuItemDoc) (hnd : (storeIds store).Nodup)
    (hfind : findById dto._id store = some existing) :
    List.Perm
      ((siblingGroup (movePipeline store existing dto now) existing.domain
        existing.structuralSubtype existing.state dto.parentId).map
        fun d => d.sortId)
      (posRangeFrom 1 ((targetSiblings (closeGapStore store existing dto)
        existing dto).length + 1)) := by
  have hmem_ex : existing ∈ store := (findById_mem hfind).1
  have hexid : existing._id = dto._id := (findById_mem hfind).2
  set s1 := closeGapStore store existing dto with hs1
  set sibs := targetSiblings s1 existing dto with hsibs
  set req := moveRequestedPosition store existing dto with hreqdef
  set N := sibs.length with hN
  have hnd1 : (storeIds s1).Nodup := by
    rw [hs1, storeIds_closeGap]; exact hnd
  have hfind1 : findById existing._id s1 = some existing := by
    rw [hs1]; exact findById_closeGap store existing dto hnd hmem_ex
  have hmem1 : existing ∈ s1 := (findById_mem hfind1).1
  have hsibs_ne : ∀ e ∈ sibs, e._id ≠ existing._id := fun e he =>
    (targetSiblings_facts he).2.1
  have hnotin : existing._id ∉ sibs.map fun e => e._id := by
    intro hc
    obtain ⟨e, he, heid⟩ := List.mem_map.mp hc
    exact hsibs_ne e he heid
  have hsibs_nodup : (sibs.map fun e => e._id).Nodup := by
    rw [hsibs]
    exact fetched_ids_nodup _ s1 hnd1
  -- phase 2 as a pointwise map
  set FI := chainOps (insertionOps req sibs 1) with hFI
  have hs2 : bulkWrite (insertionOps req sibs 1) s1 = s1.map FI :=
    bulkWrite_eq_map _ (insertionOps_idBound req sibs 1) s1 hnd1
  have hFI_id : ∀ d, (FI d)._id = d._id := fun d =>
    chainOps_preserve_proj
      (insertionOps_preserve (fun e => e._id) (fun e v => rfl) req sibs 1) d
  have hFI_quad : ∀ d : MenuItemDoc,
      ((FI d).domain, (FI d).structuralSubtype, (FI d).state,
        (FI d).parentId) = (d.domain, d.structuralSubtype, d.state,
        d.parentId) := fun d =>
    chainOps_preserve_proj
      (insertionOps_preserve
        (fun e => (e.domain, e.structuralSubtype, e.state, e.parentId))
        (fun e v => rfl) req sibs 1) d
  have hFI_ex : FI existing = existing := by
    rw [hFI]
    exact chainOps_insertion_skip req existing sibs 1 hnotin
  -- the commit as a pointwise map
  set fC : MenuItemDoc → MenuItemDoc := fun d =>
    { d with parentId := dto.parentId, sortId := req, lastUpdated := now,
             version := d.version + 1 } with hfC
  set gC : MenuItemDoc → MenuItemDoc := fun d =>
    if decide (d._id = existing._id) = true then fC d else d with hgC
  have hnd2 : (storeIds (s1.map FI)).Nodup := by
    have : storeIds (s1.map FI) = storeIds s1 := by
      unfold storeIds
      rw [List.map_map]
      exact List.map_congr_left fun d _ => hFI_id d
    rw [this]
    exact hnd1
  have hpipe : movePipeline store existing dto now = (s1.map FI).map gC := by
    show commitMovedItem (bulkWrite (insertionOps req sibs 1) s1) existing
      dto req now = (s1.map FI).map gC
    rw [commitMovedItem_eq, hs2]
    exact updateFirst_eq_map _ _ existing._id (fun e h => by simpa using h)
      _ hnd2
  -- the destination group of the final store
  have hgrp : siblingGroup (movePipeline store existing dto now)
      existing.domain existing.structuralSubtype existing.state
      dto.parentId =
      (s1.filter fun d => decide (d._id = existing._id) ||
        buildSiblingFilter existing dto.parentId existing._id d).map
        (gC ∘ FI) := by
    rw [hpipe]
    unfold siblingGroup
    rw [List.map_map, List.filter_map]
    congr 1
    apply List.filter_congr
    intro d hd
    simp only [Function.comp_apply]
    by_cases hid : d._id = existing._id
    · have hd_eq : d = existing :=
        mem_id_eq_of_nodup hnd1 hd hmem1 hid
      subst hd_eq
      rw [hFI_ex]
      have hgeq : gC d = fC d := by
        simp only [hgC]
        rw [if_pos (by simp)]
      rw [hgeq]
      simp [hfC, inSiblingGroup]
    · have hgcomp : gC (FI d) = FI d := by
        simp only [hgC]
        rw [if_neg (by simp [hFI_id d, hid])]
      rw [hgcomp]
      have hquad := hFI_quad d
      simp only [Prod.mk.injEq] at hquad
      rw [inSiblingGroup_eq_of_quad hquad.1 hquad.2.1 hquad.2.2.1
        hquad.2.2.2 existing.domain existing.structuralSubtype
        existing.state dto.parentId]
      rw [buildSiblingFilter_eq]
      simp [hid]
  -- split off the moved item
  have hsplit : List.Perm
      (s1.filter fun d => decide (d._id = existing._id) ||
        buildSiblingFilter existing dto.parentId existing._id d)
      (existing :: s1.filter
        (buildSiblingFilter existing dto.parentId existing._id)) :=
    filter_or_perm hnd1 hfind1 fun d hq => by
      rw [buildSiblingFilter_eq] at hq
      simp only [Bool.and_eq_true, decide_eq_true_eq] at hq
      exact hq.1
  -- evaluate the sortIds
  have hmap_sortId : (sibs.map fun d => ((gC ∘ FI) d).sortId) =
      (List.range N).map fun j => walkPosFrom req 1 j := by
    apply List.ext_getElem
    · simp
    · intro j h₁ h₂
      have hj : j < sibs.length := by simpa using h₁
      simp only [List.getElem_map, List.getElem_range]
      have hget : sibs[j] = sibs.get ⟨j, hj⟩ := rfl
      rw [hget]
      have heval := chainOps_insertion_eval req sibs 1 j hj hsibs_nodup
      simp only [Function.comp_apply, hFI, heval]
      simp only [hgC]
      rw [if_neg (by simpa using hsibs_ne _ (sibs.get_mem j hj))]
  have hperm2 : List.Perm
      ((siblingGroup (movePipeline store existing dto now) existing.domain
        existing.structuralSubtype existing.state dto.parentId).map
        fun d => d.sortId)
      (req :: (List.range N).map fun j => walkPosFrom req 1 j) := by
    rw [hgrp, List.map_map]
    refine ((hsplit.map fun d => ((gC ∘ FI) d).sortId)).trans ?_
    rw [List.map_cons]
    have hhead : ((gC ∘ FI) existing).sortId = req := by
      simp only [Function.comp_apply, hFI_ex, hgC]
      rw [if_pos (by simp)]
    rw [hhead]
    refine List.Perm.cons req ?_
    have hpermsibs : List.Perm
        ((s1.filter (buildSiblingFilter existing dto.parentId
          existing._id)).map fun d => ((gC ∘ FI) d).sortId)
        (sibs.map fun d => ((gC ∘ FI) d).sortId) :=
      (List.Perm.map _ (sortBySortId_perm _).symm)
    rw [hmap_sortId] at hpermsibs
    exact hpermsibs
  refine hperm2.trans ?_
  have hbounds := clamp_bounds dto.sortId N
  exact walk_positions_perm req N (by rw [hreqdef]; exact hbounds.1)
    (by rw [hreqdef]; exact hbounds.2)

theorem inSiblingGroup_fields {dom : DomainEnum}
    {sub : StructuralSubtypeEnum} {st : StateEnum} {pid : Option Nat}
    {d : MenuItemDoc} (h : inSiblingGroup dom sub st pid d = true) :
    d.domain = dom ∧ d.structuralSubtype = sub ∧ d.state = st ∧
      d.parentId = pid := by
  simpa [inSiblingGroup] using h

/-- The committed moved item: new parent (`none` cleared when moving to
root), the clamped position, fresh timestamp, bumped version. -/
theorem move_committed_item (store : Store) (dto : SortMenuItemDto)
    (now : Nat) (existing : MenuItemDoc) (hnd : (storeIds store).Nodup)
    (hfind : findById dto._id store = some existing) :
    findById existing._id (movePipeline store existing dto now) =
      some { existing with
             parentId := dto.parentId
             sortId := moveRequestedPosition store existing dto
             lastUpdated := now
             version := existing.version + 1 } := by
  have hmem_ex : existing ∈ store := (findById_mem hfind).1
  set s1 := closeGapStore store existing dto with hs1
  set sibs := targetSiblings s1 existing dto with hsibs
  set req := moveRequestedPosition store existing dto with hreqdef
  have hnd1 : (storeIds s1).Nodup := by
    rw [hs1, storeIds_closeGap]; exact hnd
  have hfind1 : findById existing._id s1 = some existing := by
    rw [hs1]; exact findById_closeGap store existing dto hnd hmem_ex
  have hnotin : existing._id ∉ sibs.map fun e => e._id := by
    intro hc
    obtain ⟨e, he, heid⟩ := List.mem_map.mp hc
    exact (targetSiblings_facts he).2.1 heid
  have hFI_id : ∀ d, (chainOps (insertionOps req sibs 1) d)._id = d._id :=
    fun d => chainOps_preserve_proj
      (insertionOps_preserve (fun e => e._id) (fun e v => rfl) req sibs 1) d
  have hs2 : bulkWrite (insertionOps req sibs 1) s1 =
      s1.map (chainOps (insertionOps req sibs 1)) :=
    bulkWrite_eq_map _ (insertionOps_idBound req sibs 1) s1 hnd1
  have hfind2 : findById existing._id
      (bulkWrite (insertionOps req sibs 1) s1) = some existing := by
    rw [hs2, @findById_map existing._id
      (chainOps (insertionOps req sibs 1)) hFI_id s1, hfind1,
      Option.map_some']
    rw [chainOps_insertion_skip req existing sibs 1 hnotin]
  have hnd2 : (storeIds (bulkWrite (insertionOps req sibs 1) s1)).Nodup := by
    rw [storeIds_bulkWrite _ _
      (insertionOps_preserve (fun e => e._id) (fun e v => rfl) req sibs 1)]
    exact hnd1
  show findById existing._id (commitMovedItem
    (bulkWrite (insertionOps req sibs 1) s1) existing dto req now) = _
  rw [commitMovedItem_eq]
  rw [updateFirst_eq_map _ _ existing._id (fun e h => by simpa using h) _
    hnd2]
  rw [@findById_map existing._id
    (fun d => if decide (d._id = existing._id) = true then
      { d with parentId := dto.parentId, sortId := req, lastUpdated := now,
               version := d.version + 1 } else d)
    (fun d => by by_cases h : d._id = existing._id <;> simp [h]) _]
  rw [hfind2, Option.map_some']
  rw [if_pos (by simp)]

/-- After a cross-group move, the `j`-th old sibling (in prior `sortId`
order, the moved item excluded) ends with `sortId = j + 1` and no other
field changed. -/
theorem move_source_members (store : Store) (dto : SortMenuItemDto)
    (now : Nat) (existing : MenuItemDoc) (hnd : (storeIds store).Nodup)
    (hfind : findById dto._id store = some existing)
    (hne : existing.parentId ≠ dto.parentId) :
    ∀ (j : Nat) (hj : j < (oldSiblings store existing).length),
      findById ((oldSiblings store existing).get ⟨j, hj⟩)._id
        (movePipeline store existing dto now) =
        some { (oldSiblings store existing).get ⟨j, hj⟩ with
               sortId := (j : Int) + 1 } := by
  intro j hj
  have hmem_ex : existing ∈ store := (findById_mem hfind).1
  set olds := oldSiblings store existing with holds
  set d := olds.get ⟨j, hj⟩ with hd
  have hdmem : d ∈ olds := olds.get_mem j hj
  have hdfacts := oldSiblings_facts (holds ▸ hdmem)
  have hpc : parentChanged existing dto = true := by
    unfold parentChanged
    cases hex : existing.parentId <;> cases hdto : dto.parentId <;>
      simp_all
  set FR := chainOps (resequenceOps olds) with hFR
  have holdsnd : (olds.map fun e => e._id).Nodup := by
    rw [holds]
    exact fetched_ids_nodup _ store hnd
  have hFR_id : ∀ e, (FR e)._id = e._id := fun e =>
    chainOps_preserve_proj
      (resequenceOpsFrom_preserve (fun x => x._id) (fun x v => rfl) 0 olds) e
  have hFR_quad : ∀ e : MenuItemDoc,
      ((FR e).domain, (FR e).structuralSubtype, (FR e).state,
        (FR e).parentId) =
      (e.domain, e.structuralSubtype, e.state, e.parentId) := fun e =>
    chainOps_preserve_proj
      (resequenceOpsFrom_preserve
        (fun x => (x.domain, x.structuralSubtype, x.state, x.parentId))
        (fun x v => rfl) 0 olds) e
  set s1 := closeGapStore store existing dto with hs1
  have hs1map : s1 = store.map FR := by
    rw [hs1, closeGapStore_eq existing dto hnd, if_pos hpc]
  have hnd1 : (storeIds s1).Nodup := by
    rw [hs1, storeIds_closeGap]; exact hnd
  have hFRd : FR d = { d with sortId := (j : Int) + 1 } := by
    rw [hFR, hd]
    have := chainOps_resequence_eval olds 0 j hj holdsnd
    rw [show chainOps (resequenceOps olds) (olds.get ⟨j, hj⟩) =
      { olds.get ⟨j, hj⟩ with sortId := ((0 : Nat) : Int) + (j : Int) + 1 }
      from this]
    have harith : ((0 : Nat) : Int) + (j : Int) + 1 = (j : Int) + 1 := by
      push_cast; omega
    rw [harith]
  have hfind1 : findById d._id s1 = some (FR d) := by
    rw [hs1map, @findById_map d._id FR hFR_id store,
      findById_of_mem_nodup hdfacts.1 hnd, Option.map_some']
  -- phase 2 skips the old sibling: it is not in the destination group
  set sibs := targetSiblings s1 existing dto with hsibs
  set req := moveRequestedPosition store existing dto with hreqdef
  have hnotin : d._id ∉ sibs.map fun e => e._id := by
    intro hc
    obtain ⟨e, he, heid⟩ := List.mem_map.mp hc
    have hef := targetSiblings_facts (hsibs ▸ he)
    have hFRdmem : FR d ∈ s1 := by
      rw [hs1map]
      exact List.mem_map_of_mem FR hdfacts.1
    have : e = FR d :=
      mem_id_eq_of_nodup hnd1 hef.1 hFRdmem (by rw [hFR_id d]; exact heid)
    have heparent : e.parentId = dto.parentId :=
      (inSiblingGroup_fields hef.2.2).2.2.2
    have hdparent : d.parentId = existing.parentId :=
      (inSiblingGroup_fields hdfacts.2.2).2.2.2
    have : (FR d).parentId = dto.parentId := this ▸ heparent
    have hq := hFR_quad d
    simp only [Prod.mk.injEq] at hq
    exact hne (hdparent ▸ hq.2.2.2 ▸ this)
  have hFI_id : ∀ e, (chainOps (insertionOps req sibs 1) e)._id = e._id :=
    fun e => chainOps_preserve_proj
      (insertionOps_preserve (fun x => x._id) (fun x v => rfl) req sibs 1) e
  have hs2 : bulkWrite (insertionOps req sibs 1) s1 =
      s1.map (chainOps (insertionOps req sibs 1)) :=
    bulkWrite_eq_map _ (insertionOps_idBound req sibs 1) s1 hnd1
  have hfind2 : findById d._id (bulkWrite (insertionOps req sibs 1) s1) =
      some (FR d) := by
    rw [hs2, @findById_map d._id (chainOps (insertionOps req sibs 1))
      hFI_id s1, hfind1, Option.map_some']
    rw [chainOps_insertion_skip req (FR d) sibs 1
      (by rw [hFR_id d]; exact hnotin)]
  have hnd2 : (storeIds (bulkWrite (insertionOps req sibs 1) s1)).Nodup := by
    rw [storeIds_bulkWrite _ _
      (insertionOps_preserve (fun x => x._id) (fun x v => rfl) req sibs 1)]
    exact hnd1
  show findById d._id (commitMovedItem
    (bulkWrite (insertionOps req sibs 1) s1) existing dto req now) = _
  rw [commitMovedItem_eq]
  rw [updateFirst_eq_map _ _ existing._id (fun e h => by simpa using h) _
    hnd2]
  rw [@findById_map d._id
    (fun e => if decide (e._id = existing._id) = true then
      { e with parentId := dto.parentId, sortId := req, lastUpdated := now,
               version := e.version + 1 } else e)
    (fun e => by by_cases h : e._id = existing._id <;> simp [h]) _]
  rw [hfind2, Option.map_some']
  rw [if_neg (by rw [hFR_id d]; simpa using hdfacts.2.1), hFRd]

/-- After a cross-group move, the vacated group consists exactly of the
old siblings and its `sortId` multiset is `{1, …, M}`. -/
theorem move_source_group (store : Store) (dto : SortMenuItemDto)
    (now : Nat) (existing : MenuItemDoc) (hnd : (storeIds store).Nodup)
    (hfind : findById dto._id store = some existing)
    (hne : existing.parentId ≠ dto.parentId) :
    List.Perm
      ((siblingGroup (movePipeline store existing dto now) existing.domain
        existing.structuralSubtype existing.state existing.parentId).map
        fun d => d.sortId)
      (posRangeFrom 1 (oldSiblings store existing).length) := by
  have hmem_ex : existing ∈ store := (findById_mem hfind).1
  set olds := oldSiblings store existing with holds
  have hpc : parentChanged existing dto = true := by
    unfold parentChanged
    cases hex : existing.parentId <;> cases hdto : dto.parentId <;> simp_all
  set FR := chainOps (resequenceOps olds) with hFR
  have holdsnd : (olds.map fun e => e._id).Nodup := by
    rw [holds]; exact fetched_ids_nodup _ store hnd
  have holds_ne : ∀ e ∈ olds, e._id ≠ existing._id := fun e he =>
    (oldSiblings_facts (holds ▸ he)).2.1
  have hnotin_olds_ex : existing._id ∉ olds.map fun e => e._id := by
    intro hc
    obtain ⟨e, he, heid⟩ := List.mem_map.mp hc
    exact holds_ne e he heid
  have hFR_id : ∀ e, (FR e)._id = e._id := fun e =>
    chainOps_preserve_proj
      (resequenceOpsFrom_preserve (fun x => x._id) (fun x v => rfl) 0 olds) e
  have hFR_quad : ∀ e : MenuItemDoc,
      ((FR e).domain, (FR e).structuralSubtype, (FR e).state,
        (FR e).parentId) =
      (e.domain, e.structuralSubtype, e.state, e.parentId) := fun e =>
    chainOps_preserve_proj
      (resequenceOpsFrom_preserve
        (fun x => (x.domain, x.structuralSubtype, x.state, x.parentId))
        (fun x v => rfl) 0 olds) e
  have hFR_ex : FR existing = existing := by
    rw [hFR]
    exact chainOps_resequence_skip existing olds 0 hnotin_olds_ex
  set s1 := closeGapStore store existing dto with hs1
  have hs1map : s1 = store.map FR := by
    rw [hs1, closeGapStore_eq existing dto hnd, if_pos hpc]
  have hnd1 : (storeIds s1).Nodup := by
    rw [hs1, storeIds_closeGap]; exact hnd
  set sibs := targetSiblings s1 existing dto with hsibs
  set req := moveRequestedPosition store existing dto with hreqdef
  set FI := chainOps (insertionOps req sibs 1) with hFI
  have hFI_id : ∀ e, (FI e)._id = e._id := fun e =>
    chainOps_preserve_proj
      (insertionOps_preserve (fun x => x._id) (fun x v => rfl) req sibs 1) e
  have hFI_quad : ∀ e : MenuItemDoc,
      ((FI e).domain, (FI e).structuralSubtype, (FI e).state,
        (FI e).parentId) =
      (e.domain, e.structuralSubtype, e.state, e.parentId) := fun e =>
    chainOps_preserve_proj
      (insertionOps_preserve
        (fun x => (x.domain, x.structuralSubtype, x.state, x.parentId))
        (fun x v => rfl) req sibs 1) e
  -- no old sibling's image is a destination sibling
  have hFI_old : ∀ e ∈ olds, FI (FR e) = FR e := by
    intro e he
    rw [hFI]
    apply chainOps_insertion_skip
    intro hc
    obtain ⟨x, hx, hxid⟩ := List.mem_map.mp hc
    have hxf := targetSiblings_facts (hsibs ▸ hx)
    have hFRemem : FR e ∈ s1 := by
      rw [hs1map]
      exact List.mem_map_of_mem FR (oldSiblings_facts (holds ▸ he)).1
    have hxeq : x = FR e := mem_id_eq_of_nodup hnd1 hxf.1 hFRemem hxid
    have hxparent : x.parentId = dto.parentId :=
      (inSiblingGroup_fields hxf.2.2).2.2.2
    have heparent : e.parentId = existing.parentId :=
      (inSiblingGroup_fields (oldSiblings_facts (holds ▸ he)).2.2).2.2.2
    have hq := hFR_quad e
    simp only [Prod.mk.injEq] at hq
    rw [hxeq, hq.2.2.2, heparent] at hxparent
    exact hne hxparent
  have hFI_ex : FI existing = existing := by
    rw [hFI]
    apply chainOps_insertion_skip
    intro hc
    obtain ⟨x, hx, hxid⟩ := List.mem_map.mp hc
    exact (targetSiblings_facts (hsibs ▸ hx)).2.1 hxid
  set fC : MenuItemDoc → MenuItemDoc := fun d =>
    { d with parentId := dto.parentId, sortId := req, lastUpdated := now,
             version := d.version + 1 } with hfC
  set gC : MenuItemDoc → MenuItemDoc := fun d =>
    if decide (d._id = existing._id) = true then fC d else d with hgC
  have hgC_skip : ∀ e : MenuItemDoc, e._id ≠ existing._id → gC e = e := by
    intro e he
    simp only [hgC]
    rw [if_neg (by simpa using he)]
  have hnd2 : (storeIds (s1.map FI)).Nodup := by
    have : storeIds (s1.map FI) = storeIds s1 := by
      unfold storeIds
      rw [List.map_map]
      exact List.map_congr_left fun e _ => hFI_id e
    rw [this]; exact hnd1
  have hpipe : movePipeline store existing dto now = (s1.map FI).map gC := by
    show commitMovedItem (bulkWrite (insertionOps req sibs 1) s1) existing
      dto req now = (s1.map FI).map gC
    rw [commitMovedItem_eq,
      bulkWrite_eq_map _ (insertionOps_idBound req sibs 1) s1 hnd1]
    exact updateFirst_eq_map _ _ existing._id (fun e h => by simpa using h)
      _ hnd2
  have hs3 : movePipeline store existing dto now =
      store.map (fun e => gC (FI (FR e))) := by
    rw [hpipe, hs1map, List.map_map, List.map_map]
    rfl
  -- the vacated group of the final store
  have hgrp : siblingGroup (movePipeline store existing dto now)
      existing.domain existing.structuralSubtype existing.state
      existing.parentId =
      (store.filter (buildSiblingFilter existing existing.parentId
        existing._id)).map (fun e => gC (FI (FR e))) := by
    rw [hs3]
    unfold siblingGroup
    rw [List.filter_map]
    congr 1
    apply List.filter_congr
    intro d hd
    simp only [Function.comp_apply]
    by_cases hid : d._id = existing._id
    · have hd_eq : d = existing := mem_id_eq_of_nodup hnd hd hmem_ex hid
      rw [hd_eq, hFR_ex, hFI_ex]
      have hgeq : gC existing = fC existing := by
        simp only [hgC]
        rw [if_pos (by simp)]
      rw [hgeq, buildSiblingFilter_eq]
      have hL : inSiblingGroup existing.domain existing.structuralSubtype
          existing.state existing.parentId (fC existing) = false := by
        simp only [hfC, inSiblingGroup]
        simp
        exact fun h => hne h.symm
      rw [hL]
      simp
    · have hskipc : gC (FI (FR d)) = FI (FR d) := by
        apply hgC_skip
        rw [hFI_id, hFR_id]
        exact hid
      rw [hskipc]
      have hq1 := hFI_quad (FR d)
      have hq2 := hFR_quad d
      simp only [Prod.mk.injEq] at hq1 hq2
      rw [inSiblingGroup_eq_of_quad (hq1.1.trans hq2.1)
        (hq1.2.1.trans hq2.2.1) (hq1.2.2.1.trans hq2.2.2.1)
        (hq1.2.2.2.trans hq2.2.2.2) existing.domain
        existing.structuralSubtype existing.state existing.parentId]
      rw [buildSiblingFilter_eq]
      simp [hid]
  have hmap : (olds.map fun e => (gC (FI (FR e))).sortId) =
      posRangeFrom 1 olds.length := by
    apply List.ext_getElem
    · simp [posRangeFrom_length]
    · intro j h₁ h₂
      have hj : j < olds.length := by simpa using h₁
      simp only [List.getElem_map]
      have hget : olds[j] = olds.get ⟨j, hj⟩ := rfl
      have hFRe : FR (olds.get ⟨j, hj⟩) =
          { olds.get ⟨j, hj⟩ with
            sortId := ((0 : Nat) : Int) + (j : Int) + 1 } := by
        rw [hFR]
        exact chainOps_resequence_eval olds 0 j hj holdsnd
      have hskip : gC (FR (olds.get ⟨j, hj⟩)) = FR (olds.get ⟨j, hj⟩) := by
        apply hgC_skip
        rw [hFR_id]
        exact holds_ne _ (olds.get_mem j hj)
      rw [hget, hFI_old _ (olds.get_mem j hj), hskip, hFRe]
      rw [show (posRangeFrom 1 olds.length)[j] =
        (posRangeFrom 1 olds.length).get ⟨j, h₂⟩ from rfl,
        posRangeFrom_get 1 olds.length j h₂]
      show ((0 : Nat) : Int) + (j : Int) + 1 = 1 + (j : Int)
      push_cast
      omega
  have hpermolds : List.Perm
      (store.filter (buildSiblingFilter existing existing.parentId
        existing._id)) olds :=
    (sortBySortId_perm _).symm
  rw [hgrp, List.map_map]
  refine (hpermolds.map _).trans ?_
  show List.Perm (olds.map fun e => (gC (FI (FR e))).sortId)
    (posRangeFrom 1 olds.length)
  rw [hmap]

/-- Documents outside both affected sibling groups are untouched by the
move pipeline. -/
theorem move_frame (store : Store) (dto : SortMenuItemDto) (now : Nat)
    (existing : MenuItemDoc) (hnd : (storeIds store).Nodup)
    (hfind : findById dto._id store = some existing) :
    ∀ d ∈ store, d._id ≠ existing._id →
      inSiblingGroup existing.domain existing.structuralSubtype
        existing.state existing.parentId d = false →
      inSiblingGroup existing.domain existing.structuralSubtype
        existing.state dto.parentId d = false →
      findById d._id (movePipeline store existing dto now) = some d := by
  intro d hd hid hnotold hnotnew
  have hfind0 : findById d._id store = some d := findById_of_mem_nodup hd hnd
  have hnotinolds : d._id ∉ (oldSiblings store existing).map
      fun e => e._id := by
    intro hc
    obtain ⟨e, he, heid⟩ := List.mem_map.mp hc
    have hef := oldSiblings_facts he
    have hed : e = d := mem_id_eq_of_nodup hnd hef.1 hd heid
    rw [hed] at hef
    rw [hef.2.2] at hnotold
    simp at hnotold
  have hnd1 : (storeIds (closeGapStore store existing dto)).Nodup := by
    rw [storeIds_closeGap]; exact hnd
  have hfind1 : findById d._id (closeGapStore store existing dto) =
      some d := by
    rw [closeGapStore_eq existing dto hnd]
    split
    · rw [@findById_map d._id
        (chainOps (resequenceOps (oldSiblings store existing)))
        (fun e => chainOps_preserve_proj
          (resequenceOpsFrom_preserve (fun x => x._id) (fun x v => rfl) 0 _)
          e) store]
      rw [hfind0, Option.map_some']
      rw [show chainOps (resequenceOps (oldSiblings store existing)) d = d
        from chainOps_resequence_skip d _ 0 hnotinolds]
    · exact hfind0
  have hmem1 : d ∈ closeGapStore store existing dto :=
    (findById_mem hfind1).1
  have hnotinsibs : d._id ∉ (targetSiblings (closeGapStore store existing
      dto) existing dto).map fun e => e._id := by
    intro hc
    obtain ⟨e, he, heid⟩ := List.mem_map.mp hc
    have hef := targetSiblings_facts he
    have hed : e = d := mem_id_eq_of_nodup hnd1 hef.1 hmem1 heid
    rw [hed] at hef
    rw [hef.2.2] at hnotnew
    simp at hnotnew
  set sibs := targetSiblings (closeGapStore store existing dto) existing dto
    with hsibs
  set req := moveRequestedPosition store existing dto with hreqdef
  have hFI_id : ∀ e, (chainOps (insertionOps req sibs 1) e)._id = e._id :=
    fun e => chainOps_preserve_proj
      (insertionOps_preserve (fun x => x._id) (fun x v => rfl) req sibs 1) e
  have hs2 : bulkWrite (insertionOps req sibs 1)
      (closeGapStore store existing dto) =
      (closeGapStore store existing dto).map
        (chainOps (insertionOps req sibs 1)) :=
    bulkWrite_eq_map _ (insertionOps_idBound req sibs 1) _ hnd1
  have hfind2 : findById d._id (bulkWrite (insertionOps req sibs 1)
      (closeGapStore store existing dto)) = some d := by
    rw [hs2, @findById_map d._id (chainOps (insertionOps req sibs 1))
      hFI_id _, hfind1, Option.map_some']
    rw [chainOps_insertion_skip req d sibs 1 hnotinsibs]
  have hnd2 : (storeIds (bulkWrite (insertionOps req sibs 1)
      (closeGapStore store existing dto))).Nodup := by
    rw [storeIds_bulkWrite _ _
      (insertionOps_preserve (fun x => x._id) (fun x v => rfl) req sibs 1)]
    exact hnd1
  show findById d._id (commitMovedItem
    (bulkWrite (insertionOps req sibs 1) (closeGapStore store existing dto))
    existing dto req now) = _
  rw [commitMovedItem_eq]
  rw [updateFirst_eq_map _ _ existing._id (fun e h => by simpa using h) _
    hnd2]
  rw [@findById_map d._id
    (fun e => if decide (e._id = existing._id) = true then
      { e with parentId := dto.parentId, sortId := req, lastUpdated := now,
               version := e.version + 1 } else e)
    (fun e => by by_cases h : e._id = existing._id <;> simp [h]) _]
  rw [hfind2, Option.map_some']
  rw [if_neg (by simpa using hid)]

/-- The spec's running example partition: two root items and a third
acting as destination parent. -/
def exStore3 : Store :=
  [mkDoc 10 1 none .ADMIN .NAV .FULL,
   mkDoc 11 2 none .ADMIN .NAV .FULL,
   mkDoc 20 3 none .ADMIN .NAV .FULL]

/-- C1 (amended): after a completed `move`, the destination sibling
group's `sortId` values are exactly `{1, …, N}` for its size `N` at
return, the vacated source group's are exactly `{1, …, M}` whenever the
parent reference changed, and every document outside the two affected
groups is untouched.  The bulk endpoints do NOT guarantee this
invariant: `reorderFlat` assigns the 0-based array indices (see the
counterexample), and `reorderTree` writes the payload's `sortId` values
verbatim, dense or not (see `reorderTree_payload_sortId_verbatim`). -/
theorem move_groups_dense (store : Store) (dto : SortMenuItemDto)
    (now : Nat) (existing : MenuItemDoc) (hnd : (storeIds store).Nodup)
    (hfind : findById dto._id store = some existing) :
    List.Perm
      ((siblingGroup (reorderMenuItems store dto now).2 existing.domain
        existing.structuralSubtype existing.state dto.parentId).map
        fun d => d.sortId)
      (posRangeFrom 1 (siblingGroup (reorderMenuItems store dto now).2
        existing.domain existing.structuralSubtype existing.state
        dto.parentId).length) ∧
    (existing.parentId ≠ dto.parentId →
      List.Perm
        ((siblingGroup (reorderMenuItems store dto now).2 existing.domain
          existing.structuralSubtype existing.state
          existing.parentId).map fun d => d.sortId)
        (posRangeFrom 1 (siblingGroup (reorderMenuItems store dto now).2
          existing.domain existing.structuralSubtype existing.state
          existing.parentId).length)) ∧
    (∀ d ∈ store, d._id ≠ existing._id →
      inSiblingGroup existing.domain existing.structuralSubtype
        existing.state existing.parentId d = false →
      inSiblingGroup existing.domain existing.structuralSubtype
        existing.state dto.parentId d = false →
      findById d._id (reorderMenuItems store dto now).2 = some d) := by
  rw [reorderMenuItems_snd now hfind]
  refine ⟨?_, ?_, ?_⟩
  · have hdest := move_dest_group store dto now existing hnd hfind
    have hlen : (siblingGroup (movePipeline store existing dto now)
        existing.domain existing.structuralSubtype existing.state
        dto.parentId).length =
        (targetSiblings (closeGapStore store existing dto) existing
          dto).length + 1 := by
      have hle := hdest.length_eq
      rwa [List.length_map, posRangeFrom_length] at hle
    rw [hlen]
    exact hdest
  · intro hne
    have hsrc := move_source_group store dto now existing hnd hfind hne
    have hlen : (siblingGroup (movePipeline store existing dto now)
        existing.domain existing.structuralSubtype existing.state
        existing.parentId).length =
        (oldSiblings store existing).length := by
      have hle := hsrc.length_eq
      rwa [List.length_map, posRangeFrom_length] at hle
    rw [hlen]
    exact hsrc
  · exact move_frame store dto now existing hnd hfind

/-- Counterexample to C1 as stated: a completed `reorderFlat` call over a
one-item partition leaves the (root) sibling group with `sortId` 0, not
`{1}` — the flat endpoint assigns 0-based indices. -/
theorem reorderFlat_breaks_density :
    ((siblingGroup
        (reorderMenuItemsFlat [mkDoc 7 1 none .ADMIN .HEADER .FULL]
          .ADMIN .HEADER .FULL [7] 9).2
        .ADMIN .HEADER .FULL none).map fun d => d.sortId) = [0] ∧
    ¬ List.Perm
      ((siblingGroup
          (reorderMenuItemsFlat [mkDoc 7 1 none .ADMIN .HEADER .FULL]
            .ADMIN .HEADER .FULL [7] 9).2
          .ADMIN .HEADER .FULL none).map fun d => d.sortId)
      (posRangeFrom 1 (siblingGroup
          (reorderMenuItemsFlat [mkDoc 7 1 none .ADMIN .HEADER .FULL]
            .ADMIN .HEADER .FULL [7] 9).2
          .ADMIN .HEADER .FULL none).length) := by
  decide

/-- `reorderTree` applies the payload's `sortId` values verbatim: a
one-item partition reordered with a payload carrying `sortId = 5` ends
at 5, so its group is `{5}`, not `{1}` — the hierarchical endpoint
guarantees density only when the payload itself is dense. -/
theorem reorderTree_payload_sortId_verbatim :
    findById 1 (reorderMenuItemsHierarchical
        [mkDoc 1 1 none .ADMIN .HEADER .FULL] .ADMIN .HEADER .FULL
        [.node 1 5 none []] 9).2 =
      some { mkDoc 1 1 none .ADMIN .HEADER .FULL with
             sortId := 5
             lastUpdated := 9 } ∧
    ¬ List.Perm
      ((siblingGroup (reorderMenuItemsHierarchical
          [mkDoc 1 1 none .ADMIN .HEADER .FULL] .ADMIN .HEADER .FULL
          [.node 1 5 none []] 9).2
        .ADMIN .HEADER .FULL none).map fun d => d.sortId)
      (posRangeFrom 1 (siblingGroup (reorderMenuItemsHierarchical
          [mkDoc 1 1 none .ADMIN .HEADER .FULL] .ADMIN .HEADER .FULL
          [.node 1 5 none []] 9).2
        .ADMIN .HEADER .FULL none).length) := by
  decide

/-- Witness for C1's amended theorem: moving item 11 (root, position 2)
under parent 20 in the example partition. -/
theorem move_groups_dense_witness :
    List.Perm
      ((siblingGroup (reorderMenuItems exStore3 ⟨11, 1, some 20⟩ 9).2
        .ADMIN .NAV .FULL (some 20)).map fun d => d.sortId)
      (posRangeFrom 1 (siblingGroup
        (reorderMenuItems exStore3 ⟨11, 1, some 20⟩ 9).2
        .ADMIN .NAV .FULL (some 20)).length) ∧
    ((none : Option Nat) ≠ some 20 →
      List.Perm
        ((siblingGroup (reorderMenuItems exStore3 ⟨11, 1, some 20⟩ 9).2
          .ADMIN .NAV .FULL none).map fun d => d.sortId)
        (posRangeFrom 1 (siblingGroup
          (reorderMenuItems exStore3 ⟨11, 1, some 20⟩ 9).2
          .ADMIN .NAV .FULL none).length)) ∧
    (∀ d ∈ exStore3, d._id ≠ 11 →
      inSiblingGroup .ADMIN .NAV .FULL none d = false →
      inSiblingGroup .ADMIN .NAV .FULL (some 20) d = false →
      findById d._id (reorderMenuItems exStore3 ⟨11, 1, some 20⟩ 9).2 =
        some d) :=
  move_groups_dense exStore3 ⟨11, 1, some 20⟩ 9
    (mkDoc 11 2 none .ADMIN .NAV .FULL) (by decide) (by decide)

/-- C2.  A move across sibling groups: the call succeeds returning the
moved item with the destination parent reference (in particular `none` —
the cleared/removed parent — when the destination is the root group), the
clamped requested position, a fresh timestamp and a bumped version; the
source group's remaining members keep their prior relative order under
`sortId = 1, …, M`; the destination group's `sortId` values become exactly
`{1, …, N + 1}`; and the committed position is clamped into
`[1, N + 1]`. -/
theorem move_across_groups (store : Store) (dto : SortMenuItemDto)
    (now : Nat) (existing : MenuItemDoc) (hnd : (storeIds store).Nodup)
    (hfind : findById dto._id store = some existing)
    (hne : existing.parentId ≠ dto.parentId) :
    reorderMenuItems store dto now =
      (.ok { existing with
             parentId := dto.parentId
             sortId := moveRequestedPosition store existing dto
             lastUpdated := now
             version := existing.version + 1 },
       movePipeline store existing dto now) ∧
    (∀ (j : Nat) (hj : j < (oldSiblings store existing).length),
      findById ((oldSiblings store existing).get ⟨j, hj⟩)._id
        (reorderMenuItems store dto now).2 =
        some { (oldSiblings store existing).get ⟨j, hj⟩ with
               sortId := (j : Int) + 1 }) ∧
    List.Perm
      ((siblingGroup (reorderMenuItems store dto now).2 existing.domain
        existing.structuralSubtype existing.state dto.parentId).map
        fun d => d.sortId)
      (posRangeFrom 1 ((targetSiblings (closeGapStore store existing dto)
        existing dto).length + 1)) ∧
    1 ≤ moveRequestedPosition store existing dto ∧
    moveRequestedPosition store existing dto ≤
      ((targetSiblings (closeGapStore store existing dto) existing
        dto).length : Int) + 1 := by
  refine ⟨?_, ?_, ?_, ?_, ?_⟩
  · have hcommitted := move_committed_item store dto now existing hnd hfind
    simp only [reorderMenuItems, hfind]
    rw [hcommitted]
  · intro j hj
    rw [reorderMenuItems_snd now hfind]
    exact move_source_members store dto now existing hnd hfind hne j hj
  · rw [reorderMenuItems_snd now hfind]
    exact move_dest_group store dto now existing hnd hfind
  · exact (clamp_bounds dto.sortId _).1
  · exact (clamp_bounds dto.sortId _).2

/-- Witness for C2: item 11 moves from the root group (siblings 10, 11)
under parent 20 in the example partition. -/
theorem move_across_groups_witness :
    reorderMenuItems exStore3 ⟨11, 1, some 20⟩ 9 =
      (.ok { mkDoc 11 2 none .ADMIN .NAV .FULL with
             parentId := some 20
             sortId := moveRequestedPosition exStore3
               (mkDoc 11 2 none .ADMIN .NAV .FULL) ⟨11, 1, some 20⟩
             lastUpdated := 9
             version := (mkDoc 11 2 none .ADMIN .NAV .FULL).version + 1 },
       movePipeline exStore3 (mkDoc 11 2 none .ADMIN .NAV .FULL)
         ⟨11, 1, some 20⟩ 9) ∧
    (∀ (j : Nat) (hj : j < (oldSiblings exStore3
        (mkDoc 11 2 none .ADMIN .NAV .FULL)).length),
      findById ((oldSiblings exStore3
          (mkDoc 11 2 none .ADMIN .NAV .FULL)).get ⟨j, hj⟩)._id
        (reorderMenuItems exStore3 ⟨11, 1, some 20⟩ 9).2 =
        some { (oldSiblings exStore3
            (mkDoc 11 2 none .ADMIN .NAV .FULL)).get ⟨j, hj⟩ with
               sortId := (j : Int) + 1 }) ∧
    List.Perm
      ((siblingGroup (reorderMenuItems exStore3 ⟨11, 1, some 20⟩ 9).2
        .ADMIN .NAV .FULL (some 20)).map fun d => d.sortId)
      (posRangeFrom 1 ((targetSiblings (closeGapStore exStore3
        (mkDoc 11 2 none .ADMIN .NAV .FULL) ⟨11, 1, some 20⟩)
        (mkDoc 11 2 none .ADMIN .NAV .FULL) ⟨11, 1, some 20⟩).length + 1)) ∧
    1 ≤ moveRequestedPosition exStore3 (mkDoc 11 2 none .ADMIN .NAV .FULL)
      ⟨11, 1, some 20⟩ ∧
    moveRequestedPosition exStore3 (mkDoc 11 2 none .ADMIN .NAV .FULL)
      ⟨11, 1, some 20⟩ ≤
      ((targetSiblings (closeGapStore exStore3
        (mkDoc 11 2 none .ADMIN .NAV .FULL) ⟨11, 1, some 20⟩)
        (mkDoc 11 2 none .ADMIN .NAV .FULL) ⟨11, 1, some 20⟩).length :
        Int) + 1 :=
  move_across_groups exStore3 ⟨11, 1, some 20⟩ 9
    (mkDoc 11 2 none .ADMIN .NAV .FULL) (by decide) (by decide) (by decide)

/-! ### Within-group moves -/

theorem sortId_update_collapse (d : MenuItemDoc) (a b : Int) :
    ({ { d with sortId := a } with sortId := b } : MenuItemDoc) =
      { d with sortId := b } := rfl

/-- Two sorted permutations of each other with duplicate-free `sortId`
values are equal. -/
theorem sorted_nodup_sortId_eq :
    ∀ {l₁ l₂ : List MenuItemDoc}, List.Perm l₁ l₂ →
      List.Sorted sortIdLE l₁ → List.Sorted sortIdLE l₂ →
      (l₁.map fun d => d.sortId).Nodup → l₁ = l₂ := by
  intro l₁
  induction l₁ with
  | nil =>
    intro l₂ hperm _ _ _
    exact hperm.nil_eq
  | cons a t ih =>
    intro l₂ hperm h₁ h₂ hnd
    cases l₂ with
    | nil => exact absurd hperm.symm.nil_eq (by simp)
    | cons b u =>
      simp only [List.map_cons, List.nodup_cons] at hnd
      have hs₁ := List.sorted_cons.mp h₁
      have hs₂ := List.sorted_cons.mp h₂
      have hab : a = b := by
        have ha2 : a ∈ b :: u := hperm.subset (List.mem_cons_self a t)
        rcases List.mem_cons.mp ha2 with hh | ha2'
        · exact hh
        · have hb1 : b ∈ a :: t := hperm.symm.subset (List.mem_cons_self b u)
          rcases List.mem_cons.mp hb1 with hh | hb1'
          · exact hh.symm
          · have hle1 : a.sortId ≤ b.sortId := hs₁.1 b hb1'
            have hle2 : b.sortId ≤ a.sortId := hs₂.1 a ha2'
            have heq : b.sortId = a.sortId := le_antisymm hle2 hle1
            exact absurd (heq ▸ List.mem_map_of_mem (fun d => d.sortId)
              hb1') hnd.1
      subst hab
      rw [ih hperm.cons_inv hs₁.2 hs₂.2 hnd.2]

theorem posRangeFrom_append (s : Int) (m n : Nat) :
    posRangeFrom s (m + n) =
      posRangeFrom s m ++ posRangeFrom (s + (m : Int)) n := by
  induction m generalizing s with
  | zero => simp [posRangeFrom]
  | succ m ih =>
    have h1 : m + 1 + n = (m + n) + 1 := by omega
    rw [h1]
    rw [show posRangeFrom s (m + n + 1) =
      s :: posRangeFrom (s + 1) (m + n) from rfl]
    rw [show posRangeFrom s (m + 1) =
      s :: posRangeFrom (s + 1) m from rfl]
    rw [List.cons_append, ih (s + 1)]
    have h2 : s + 1 + (m : Int) = s + ((m + 1 : Nat) : Int) := by
      push_cast
      omega
    rw [h2]

/-- Erasing a member `x` from the dense range `1..N` leaves the two dense
runs around it. -/
theorem posRange_erase_split (N : Nat) (x : Int) (hx1 : 1 ≤ x)
    (hx2 : x ≤ (N : Int)) :
    (posRangeFrom 1 N).erase x =
      posRangeFrom 1 (x - 1).toNat ++
        posRangeFrom (x + 1) (N - (x - 1).toNat - 1) := by
  have hm : (x - 1).toNat + (N - (x - 1).toNat) = N := by omega
  have hsplit : posRangeFrom 1 N =
      posRangeFrom 1 (x - 1).toNat ++
        posRangeFrom (1 + ((x - 1).toNat : Int)) (N - (x - 1).toNat) := by
    conv_lhs => rw [← hm]
    exact posRangeFrom_append 1 (x - 1).toNat (N - (x - 1).toNat)
  have hstart : (1 : Int) + ((x - 1).toNat : Int) = x := by omega
  have hn1 : N - (x - 1).toNat = (N - (x - 1).toNat - 1) + 1 := by omega
  rw [hsplit, hstart, hn1]
  rw [show posRangeFrom x (N - (x - 1).toNat - 1 + 1) =
    x :: posRangeFrom (x + 1) (N - (x - 1).toNat - 1) from rfl]
  rw [List.erase_append_right _ (by
    intro hmem
    have hb := posRangeFrom_mem hmem
    omega)]
  rw [List.erase_cons_head]
  have hfix : N - (x - 1).toNat - 1 + 1 - 1 = N - (x - 1).toNat - 1 := by
    omega
  rw [hfix]

theorem posRangeFrom_getElem (s : Int) :
    ∀ (n j : Nat) (hj : j < (posRangeFrom s n).length),
      (posRangeFrom s n)[j] = s + j :=
  fun n j hj => posRangeFrom_get s n j hj

/-- The `j`-th remaining position after erasing `x` from `1..N`: the
positions below `x` are unchanged, the ones above shift left past the
hole. -/
theorem posRange_erase_get (N : Nat) (x : Int) (hx1 : 1 ≤ x)
    (hx2 : x ≤ (N : Int)) (j : Nat)
    (hj : j < ((posRangeFrom 1 N).erase x).length) :
    ((posRangeFrom 1 N).erase x).get ⟨j, hj⟩ =
      if (j : Int) + 1 < x then (j : Int) + 1 else (j : Int) + 2 := by
  have hsplit := posRange_erase_split N x hx1 hx2
  have hj' : j < (x - 1).toNat + (N - (x - 1).toNat - 1) := by
    rw [hsplit] at hj
    simpa [posRangeFrom_length] using hj
  rw [show ((posRangeFrom 1 N).erase x).get ⟨j, hj⟩ =
    ((posRangeFrom 1 N).erase x)[j] from rfl]
  simp only [hsplit]
  by_cases hcase : j < (x - 1).toNat
  · rw [List.getElem_append_left (by
      simpa [posRangeFrom_length] using hcase)]
    rw [posRangeFrom_getElem]
    rw [if_pos (show (j : Int) + 1 < x by omega)]
    omega
  · rw [List.getElem_append_right (by
      simpa [posRangeFrom_length] using Nat.le_of_not_lt hcase)]
    rw [posRangeFrom_getElem]
    simp only [posRangeFrom_length]
    rw [if_neg (show ¬((j : Int) + 1 < x) by omega)]
    omega

/-- A sibling group is, up to order, its anchor together with the
`buildSiblingFilter` fetch that excludes the anchor. -/
theorem group_split_perm {store : Store} {existing : MenuItemDoc}
    (hnd : (storeIds store).Nodup) (hmem : existing ∈ store) :
    List.Perm (siblingGroup store existing.domain
        existing.structuralSubtype existing.state existing.parentId)
      (existing :: store.filter (buildSiblingFilter existing
        existing.parentId existing._id)) := by
  have hfind : findById existing._id store = some existing :=
    findById_of_mem_nodup hmem hnd
  have hcongr : ∀ d ∈ store,
      inSiblingGroup existing.domain existing.structuralSubtype
        existing.state existing.parentId d =
      (decide (d._id = existing._id) ||
        buildSiblingFilter existing existing.parentId existing._id d) := by
    intro d hd
    by_cases hid : d._id = existing._id
    · have hdeq : d = existing := mem_id_eq_of_nodup hnd hd hmem hid
      rw [hdeq]
      simp [inSiblingGroup]
    · rw [buildSiblingFilter_eq]
      simp [hid]
  unfold siblingGroup
  rw [List.filter_congr hcongr]
  exact filter_or_perm hnd hfind fun d hq => by
    rw [buildSiblingFilter_eq] at hq
    simp only [Bool.and_eq_true, decide_eq_true_eq] at hq
    exact hq.1

/-- In a dense sibling group (`sortId` values `1..N`), the anchor sits at
a position in `[1, N]` and its ordered co-siblings carry exactly the
remaining positions. -/
theorem oldSiblings_sortId_char (store : Store) (existing : MenuItemDoc)
    (hnd : (storeIds store).Nodup) (hmem : existing ∈ store)
    (hdense : ((sortBySortId (siblingGroup store existing.domain
        existing.structuralSubtype existing.state
        existing.parentId)).map fun d => d.sortId) =
      posRangeFrom 1 (siblingGroup store existing.domain
        existing.structuralSubtype existing.state
        existing.parentId).length) :
    1 ≤ existing.sortId ∧
    existing.sortId ≤ ((siblingGroup store existing.domain
      existing.structuralSubtype existing.state
      existing.parentId).length : Int) ∧
    ((oldSiblings store existing).map fun d => d.sortId) =
      (posRangeFrom 1 (siblingGroup store existing.domain
        existing.structuralSubtype existing.state
        existing.parentId).length).erase existing.sortId := by
  have hsplit := group_split_perm hnd hmem
  have hperm1 : List.Perm ((siblingGroup store existing.domain
      existing.structuralSubtype existing.state existing.parentId).map
      fun d => d.sortId)
      (posRangeFrom 1 (siblingGroup store existing.domain
        existing.structuralSubtype existing.state
        existing.parentId).length) := by
    refine (((sortBySortId_perm _).map fun d => d.sortId).symm).trans ?_
    rw [hdense]
  have hperm2 : List.Perm (existing.sortId ::
      ((store.filter (buildSiblingFilter existing existing.parentId
        existing._id)).map fun d => d.sortId))
      (posRangeFrom 1 (siblingGroup store existing.domain
        existing.structuralSubtype existing.state
        existing.parentId).length) := by
    have h := hsplit.map (fun d => d.sortId)
    simp only [List.map_cons] at h
    exact h.symm.trans hperm1
  have hxmem : existing.sortId ∈ posRangeFrom 1 (siblingGroup store
      existing.domain existing.structuralSubtype existing.state
      existing.parentId).length :=
    hperm2.subset (List.mem_cons_self _ _)
  have hbounds := posRangeFrom_mem hxmem
  have hperm3 : List.Perm ((store.filter (buildSiblingFilter existing
      existing.parentId existing._id)).map fun d => d.sortId)
      ((posRangeFrom 1 (siblingGroup store existing.domain
        existing.structuralSubtype existing.state
        existing.parentId).length).erase existing.sortId) :=
    (hperm2.trans (List.perm_cons_erase hxmem)).cons_inv
  have hperm4 : List.Perm ((oldSiblings store existing).map
      fun d => d.sortId)
      ((posRangeFrom 1 (siblingGroup store existing.domain
        existing.structuralSubtype existing.state
        existing.parentId).length).erase existing.sortId) :=
    ((sortBySortId_perm _).map fun d => d.sortId).trans hperm3
  have hsortederase : List.Sorted (· ≤ ·)
      ((posRangeFrom 1 (siblingGroup store existing.domain
        existing.structuralSubtype existing.state
        existing.parentId).length).erase existing.sortId) :=
    List.Pairwise.sublist (List.erase_sublist _ _)
      (posRangeFrom_sorted 1 _)
  exact ⟨hbounds.1, by omega,
    map_sortId_eq_of_perm_sorted hperm4 (sortBySortId_sorted _)
      hsortederase⟩

/-- Within-group move (same parent reference on both sides): the `j`-th
prior sibling (in `sortId` order, the moved item excluded) ends with the
insertion walk's position for index `j` and no other field changed. -/
theorem move_within_pipeline (store : Store) (dto : SortMenuItemDto)
    (now : Nat) (existing : MenuItemDoc) (hnd : (storeIds store).Nodup)
    (hfind : findById dto._id store = some existing)
    (hpar : existing.parentId = dto.parentId) :
    ∀ (j : Nat) (hj : j < (oldSiblings store existing).length),
      findById ((oldSiblings store existing).get ⟨j, hj⟩)._id
        (movePipeline store existing dto now) =
        some { (oldSiblings store existing).get ⟨j, hj⟩ with
               sortId := walkPosFrom
                 (moveRequestedPosition store existing dto) 1 j } := by
  intro j hj
  have hmem_ex : existing ∈ store := (findById_mem hfind).1
  set olds := oldSiblings store existing with holds
  set d := olds.get ⟨j, hj⟩ with hd
  have hdmem : d ∈ olds := olds.get_mem j hj
  have hdfacts := oldSiblings_facts (holds ▸ hdmem)
  have holdsnd : (olds.map fun e => e._id).Nodup := by
    rw [holds]
    exact fetched_ids_nodup _ store hnd
  set req := moveRequestedPosition store existing dto with hreqdef
  cases hpc : parentChanged existing dto with
  | false =>
    have hs1 : closeGapStore store existing dto = store := by
      unfold closeGapStore
      rw [if_neg (by simp [hpc])]
    have htgt : targetSiblings store existing dto = olds := by
      rw [holds]
      unfold targetSiblings oldSiblings
      rw [← hpar]
    have hpipe : movePipeline store existing dto now =
        commitMovedItem (bulkWrite (insertionOps req olds 1) store)
          existing dto req now := by
      show commitMovedItem (bulkWrite (insertionOps req
          (targetSiblings (closeGapStore store existing dto) existing dto)
          1) (closeGapStore store existing dto)) existing dto req now = _
      rw [hs1, htgt]
    have hFI_id : ∀ e, (chainOps (insertionOps req olds 1) e)._id = e._id :=
      fun e => chainOps_preserve_proj
        (insertionOps_preserve (fun x => x._id) (fun x v => rfl) req olds 1)
        e
    have hs2 : bulkWrite (insertionOps req olds 1) store =
        store.map (chainOps (insertionOps req olds 1)) :=
      bulkWrite_eq_map _ (insertionOps_idBound req olds 1) store hnd
    have heval : chainOps (insertionOps req olds 1) d =
        { d with sortId := walkPosFrom req 1 j } := by
      rw [hd]
      exact chainOps_insertion_eval req olds 1 j hj holdsnd
    have hfind2 : findById d._id (bulkWrite (insertionOps req olds 1)
        store) = some { d with sortId := walkPosFrom req 1 j } := by
      rw [hs2, @findById_map d._id (chainOps (insertionOps req olds 1))
        hFI_id store, findById_of_mem_nodup hdfacts.1 hnd,
        Option.map_some', heval]
    have hnd2 : (storeIds (bulkWrite (insertionOps req olds 1)
        store)).Nodup := by
      rw [storeIds_bulkWrite _ _
        (insertionOps_preserve (fun x => x._id) (fun x v => rfl) req olds
          1)]
      exact hnd
    rw [hpipe, commitMovedItem_eq]
    rw [updateFirst_eq_map _ _ existing._id (fun e h => by simpa using h) _
      hnd2]
    rw [@findById_map d._id
      (fun e => if decide (e._id = existing._id) = true then
        { e with parentId := dto.parentId, sortId := req, lastUpdated := now,
                 version := e.version + 1 } else e)
      (fun e => by by_cases h : e._id = existing._id <;> simp [h]) _]
    rw [hfind2, Option.map_some']
    rw [if_neg (by simpa using hdfacts.2.1)]
  | true =>
    have hFR_id : ∀ e, (chainOps (resequenceOps olds) e)._id = e._id :=
      fun e => chainOps_preserve_proj
        (resequenceOpsFrom_preserve (fun x => x._id) (fun x v => rfl) 0
          olds) e
    have hFR_quad : ∀ e : MenuItemDoc,
        ((chainOps (resequenceOps olds) e).domain,
         (chainOps (resequenceOps olds) e).structuralSubtype,
         (chainOps (resequenceOps olds) e).state,
         (chainOps (resequenceOps olds) e).parentId) =
        (e.domain, e.structuralSubtype, e.state, e.parentId) := fun e =>
      chainOps_preserve_proj
        (resequenceOpsFrom_preserve
          (fun x => (x.domain, x.structuralSubtype, x.state, x.parentId))
          (fun x v => rfl) 0 olds) e
    have hs1map : closeGapStore store existing dto =
        store.map (chainOps (resequenceOps olds)) := by
      rw [closeGapStore_eq existing dto hnd, if_pos hpc, holds]
    have hnd1 : (storeIds (closeGapStore store existing dto)).Nodup := by
      rw [storeIds_closeGap]
      exact hnd
    have hFRd : chainOps (resequenceOps olds) d =
        { d with sortId := (j : Int) + 1 } := by
      rw [hd]
      have heval := chainOps_resequence_eval olds 0 j hj holdsnd
      rw [show chainOps (resequenceOps olds) (olds.get ⟨j, hj⟩) =
        { olds.get ⟨j, hj⟩ with
          sortId := ((0 : Nat) : Int) + (j : Int) + 1 } from heval]
      have harith : ((0 : Nat) : Int) + (j : Int) + 1 = (j : Int) + 1 := by
        push_cast
        omega
      rw [harith]
    have hfiltmap : (closeGapStore store existing dto).filter
        (buildSiblingFilter existing dto.parentId existing._id) =
        (store.filter (buildSiblingFilter existing existing.parentId
          existing._id)).map (chainOps (resequenceOps olds)) := by
      rw [hs1map, List.filter_map]
      congr 1
      apply List.filter_congr
      intro e he
      simp only [Function.comp_apply]
      rw [buildSiblingFilter_eq, buildSiblingFilter_eq, hFR_id e, ← hpar]
      have hq := hFR_quad e
      simp only [Prod.mk.injEq] at hq
      rw [inSiblingGroup_eq_of_quad hq.1 hq.2.1 hq.2.2.1 hq.2.2.2
        existing.domain existing.structuralSubtype existing.state
        existing.parentId]
    have hmapeq : ((olds.map (chainOps (resequenceOps olds))).map
        fun e => e.sortId) = posRangeFrom 1 olds.length := by
      apply List.ext_getElem
      · simp [posRangeFrom_length]
      · intro i h₁ h₂
        have hi : i < olds.length := by simpa using h₁
        simp only [List.getElem_map]
        have heval : chainOps (resequenceOps olds) (olds.get ⟨i, hi⟩) =
            { olds.get ⟨i, hi⟩ with
              sortId := ((0 : Nat) : Int) + (i : Int) + 1 } :=
          chainOps_resequence_eval olds 0 i hi holdsnd
        rw [show olds[i] = olds.get ⟨i, hi⟩ from rfl, heval]
        rw [show (posRangeFrom 1 olds.length)[i] =
          (posRangeFrom 1 olds.length).get ⟨i, h₂⟩ from rfl,
          posRangeFrom_get 1 olds.length i h₂]
        show ((0 : Nat) : Int) + (i : Int) + 1 = 1 + (i : Int)
        push_cast
        omega
    have hsortedmap : List.Sorted sortIdLE
        (olds.map (chainOps (resequenceOps olds))) := by
      have h := posRangeFrom_sorted 1 olds.length
      rw [← hmapeq] at h
      exact (List.pairwise_map (f := fun e : MenuItemDoc => e.sortId)
        (l := olds.map (chainOps (resequenceOps olds)))).mp h
    have hpermtf : List.Perm
        (sortBySortId ((store.filter (buildSiblingFilter existing
          existing.parentId existing._id)).map
          (chainOps (resequenceOps olds))))
        (olds.map (chainOps (resequenceOps olds))) :=
      (sortBySortId_perm _).trans
        (((sortBySortId_perm (store.filter (buildSiblingFilter existing
          existing.parentId existing._id))).symm).map _)
    have hndmap : ((sortBySortId ((store.filter (buildSiblingFilter
        existing existing.parentId existing._id)).map
        (chainOps (resequenceOps olds)))).map fun e => e.sortId).Nodup := by
      rw [(hpermtf.map fun e => e.sortId).nodup_iff]
      rw [hmapeq]
      exact posRangeFrom_nodup 1 olds.length
    have htgt : targetSiblings (closeGapStore store existing dto) existing
        dto = olds.map (chainOps (resequenceOps olds)) := by
      unfold targetSiblings
      rw [hfiltmap]
      exact sorted_nodup_sortId_eq hpermtf (sortBySortId_sorted _)
        hsortedmap hndmap
    have hfind1 : findById d._id (closeGapStore store existing dto) =
        some (chainOps (resequenceOps olds) d) := by
      rw [hs1map, @findById_map d._id (chainOps (resequenceOps olds))
        hFR_id store, findById_of_mem_nodup hdfacts.1 hnd,
        Option.map_some']
    have hndt : ((olds.map (chainOps (resequenceOps olds))).map
        fun e => e._id).Nodup := by
      rw [List.map_map]
      rw [show ((fun e : MenuItemDoc => e._id) ∘
        chainOps (resequenceOps olds)) =
        fun e : MenuItemDoc => e._id from funext fun e => hFR_id e]
      exact holdsnd
    have hjm : j < (olds.map (chainOps (resequenceOps olds))).length := by
      simpa using hj
    have hgetm : (olds.map (chainOps (resequenceOps olds))).get ⟨j, hjm⟩ =
        chainOps (resequenceOps olds) d := by
      have h1 : (olds.map (chainOps (resequenceOps olds))).get ⟨j, hjm⟩ =
          (olds.map (chainOps (resequenceOps olds)))[j] := rfl
      have h2 : (olds.map (chainOps (resequenceOps olds)))[j] =
          chainOps (resequenceOps olds) (olds.get ⟨j, hj⟩) := by
        simp
      rw [h1, h2, ← hd]
    have heval2 : chainOps (insertionOps req (olds.map (chainOps
        (resequenceOps olds))) 1) (chainOps (resequenceOps olds) d) =
        { d with sortId := walkPosFrom req 1 j } := by
      have h := chainOps_insertion_eval req
        (olds.map (chainOps (resequenceOps olds))) 1 j hjm hndt
      rw [hgetm] at h
      rw [h, hFRd, sortId_update_collapse]
    have hfind2 : findById d._id (bulkWrite (insertionOps req
        (targetSiblings (closeGapStore store existing dto) existing dto) 1)
        (closeGapStore store existing dto)) =
        some { d with sortId := walkPosFrom req 1 j } := by
      rw [bulkWrite_eq_map _ (insertionOps_idBound req _ 1) _ hnd1]
      rw [@findById_map d._id (chainOps (insertionOps req
        (targetSiblings (closeGapStore store existing dto) existing dto)
        1))
        (fun e => chainOps_preserve_proj
          (insertionOps_preserve (fun x => x._id) (fun x v => rfl) req _ 1)
          e) _]
      rw [hfind1, Option.map_some']
      rw [htgt, heval2]
    have hnd2 : (storeIds (bulkWrite (insertionOps req
        (targetSiblings (closeGapStore store existing dto) existing dto) 1)
        (closeGapStore store existing dto))).Nodup := by
      rw [storeIds_bulkWrite _ _
        (insertionOps_preserve (fun x => x._id) (fun x v => rfl) req _ 1)]
      exact hnd1
    show findById d._id (commitMovedItem (bulkWrite (insertionOps req
      (targetSiblings (closeGapStore store existing dto) existing dto) 1)
      (closeGapStore store existing dto)) existing dto req now) = _
    rw [commitMovedItem_eq]
    rw [updateFirst_eq_map _ _ existing._id (fun e h => by simpa using h) _
      hnd2]
    rw [@findById_map d._id
      (fun e => if decide (e._id = existing._id) = true then
        { e with parentId := dto.parentId, sortId := req, lastUpdated := now,
                 version := e.version + 1 } else e)
      (fun e => by by_cases h : e._id = existing._id <;> simp [h]) _]
    rw [hfind2, Option.map_some']
    rw [if_neg (by simpa using hdfacts.2.1)]

/-- C3 (amended): moving an item within its own (dense) sibling group to a
requested position `P` at or before its prior position shifts each
sibling whose prior position lies in `[P, prior position of the moved
item)` up by one; every other sibling keeps its position, and the moved
item is committed at `P`.  (For `P` beyond the prior position the walk
shifts the in-between siblings down instead — see the counterexample.) -/
theorem move_within_group_shift (store : Store) (dto : SortMenuItemDto)
    (now : Nat) (existing : MenuItemDoc) (hnd : (storeIds store).Nodup)
    (hfind : findById dto._id store = some existing)
    (hpar : existing.parentId = dto.parentId)
    (hdense : ((sortBySortId (siblingGroup store existing.domain
        existing.structuralSubtype existing.state
        existing.parentId)).map fun d => d.sortId) =
      posRangeFrom 1 (siblingGroup store existing.domain
        existing.structuralSubtype existing.state
        existing.parentId).length)
    (hreq : moveRequestedPosition store existing dto ≤ existing.sortId) :
    (∀ (j : Nat) (hj : j < (oldSiblings store existing).length),
      findById ((oldSiblings store existing).get ⟨j, hj⟩)._id
        (reorderMenuItems store dto now).2 =
        some { (oldSiblings store existing).get ⟨j, hj⟩ with
               sortId := if moveRequestedPosition store existing dto ≤
                   ((oldSiblings store existing).get ⟨j, hj⟩).sortId ∧
                   ((oldSiblings store existing).get ⟨j, hj⟩).sortId <
                     existing.sortId
                 then ((oldSiblings store existing).get ⟨j, hj⟩).sortId + 1
                 else ((oldSiblings store existing).get ⟨j, hj⟩).sortId }) ∧
    findById existing._id (reorderMenuItems store dto now).2 =
      some { existing with
             parentId := dto.parentId
             sortId := moveRequestedPosition store existing dto
             lastUpdated := now
             version := existing.version + 1 } := by
  obtain ⟨hx1, hx2, hchar⟩ := oldSiblings_sortId_char store existing hnd
    (findById_mem hfind).1 hdense
  have hreq1 : 1 ≤ moveRequestedPosition store existing dto :=
    (clamp_bounds dto.sortId _).1
  refine ⟨?_, ?_⟩
  · intro j hj
    rw [reorderMenuItems_snd now hfind,
      move_within_pipeline store dto now existing hnd hfind hpar j hj]
    have hjm : j < ((oldSiblings store existing).map
        fun d => d.sortId).length := by
      simpa using hj
    have hjlen : j < ((posRangeFrom 1 (siblingGroup store existing.domain
        existing.structuralSubtype existing.state
        existing.parentId).length).erase existing.sortId).length := by
      rw [← hchar]
      exact hjm
    have hds : ((oldSiblings store existing).get ⟨j, hj⟩).sortId =
        if (j : Int) + 1 < existing.sortId then (j : Int) + 1
        else (j : Int) + 2 := by
      have h1 : ((oldSiblings store existing).get ⟨j, hj⟩).sortId =
          ((oldSiblings store existing).map fun d => d.sortId).get
            ⟨j, hjm⟩ := by
        simp
      have h2 := List.get_of_eq hchar ⟨j, hjm⟩
      rw [h1, h2]
      exact posRange_erase_get _ existing.sortId hx1 hx2 j hjlen
    have hw : walkPosFrom (moveRequestedPosition store existing dto) 1 j =
        if moveRequestedPosition store existing dto ≤
            ((oldSiblings store existing).get ⟨j, hj⟩).sortId ∧
            ((oldSiblings store existing).get ⟨j, hj⟩).sortId <
              existing.sortId
        then ((oldSiblings store existing).get ⟨j, hj⟩).sortId + 1
        else ((oldSiblings store existing).get ⟨j, hj⟩).sortId := by
      rw [hds]
      unfold walkPosFrom
      split_ifs <;> omega
    rw [hw]
  · rw [reorderMenuItems_snd now hfind]
    exact move_committed_item store dto now existing hnd hfind

/-- Counterexample to C3 as stated: in the dense root group
{a:1, b:2, c:3}, `move(a, requestedPosition = 2)` puts b — the prior
occupant of position 2 — at position 1, not at position 3: the walk
places siblings before the reserved slot instead of shifting them past
it. -/
theorem move_within_not_insertion_shift :
    findById 2 (reorderMenuItems [mkDoc 1 1 none .ADMIN .HEADER .FULL,
        mkDoc 2 2 none .ADMIN .HEADER .FULL,
        mkDoc 3 3 none .ADMIN .HEADER .FULL] ⟨1, 2, none⟩ 7).2 =
      some { mkDoc 2 2 none .ADMIN .HEADER .FULL with sortId := 1 } ∧
    findById 2 (reorderMenuItems [mkDoc 1 1 none .ADMIN .HEADER .FULL,
        mkDoc 2 2 none .ADMIN .HEADER .FULL,
        mkDoc 3 3 none .ADMIN .HEADER .FULL] ⟨1, 2, none⟩ 7).2 ≠
      some { mkDoc 2 2 none .ADMIN .HEADER .FULL with sortId := 3 } := by
  decide

/-- Witness for C3's amended theorem: the spec's example
`move(b, requestedPosition = 1)` in {a:1, b:2, c:3} — a moves 1 → 2,
c stays at 3, b is committed at 1. -/
theorem move_within_group_shift_witness :
    (∀ (j : Nat) (hj : j < (oldSiblings [mkDoc 1 1 none .ADMIN .HEADER
          .FULL, mkDoc 2 2 none .ADMIN .HEADER .FULL,
          mkDoc 3 3 none .ADMIN .HEADER .FULL]
        (mkDoc 2 2 none .ADMIN .HEADER .FULL)).length),
      findById ((oldSiblings [mkDoc 1 1 none .ADMIN .HEADER .FULL,
          mkDoc 2 2 none .ADMIN .HEADER .FULL,
          mkDoc 3 3 none .ADMIN .HEADER .FULL]
          (mkDoc 2 2 none .ADMIN .HEADER .FULL)).get ⟨j, hj⟩)._id
        (reorderMenuItems [mkDoc 1 1 none .ADMIN .HEADER .FULL,
          mkDoc 2 2 none .ADMIN .HEADER .FULL,
          mkDoc 3 3 none .ADMIN .HEADER .FULL] ⟨2, 1, none⟩ 7).2 =
        some { (oldSiblings [mkDoc 1 1 none .ADMIN .HEADER .FULL,
            mkDoc 2 2 none .ADMIN .HEADER .FULL,
            mkDoc 3 3 none .ADMIN .HEADER .FULL]
            (mkDoc 2 2 none .ADMIN .HEADER .FULL)).get ⟨j, hj⟩ with
               sortId := if moveRequestedPosition
                   [mkDoc 1 1 none .ADMIN .HEADER .FULL,
                    mkDoc 2 2 none .ADMIN .HEADER .FULL,
                    mkDoc 3 3 none .ADMIN .HEADER .FULL]
                   (mkDoc 2 2 none .ADMIN .HEADER .FULL) ⟨2, 1, none⟩ ≤
                   ((oldSiblings [mkDoc 1 1 none .ADMIN .HEADER .FULL,
                     mkDoc 2 2 none .ADMIN .HEADER .FULL,
                     mkDoc 3 3 none .ADMIN .HEADER .FULL]
                     (mkDoc 2 2 none .ADMIN .HEADER .FULL)).get
                     ⟨j, hj⟩).sortId ∧
                   ((oldSiblings [mkDoc 1 1 none .ADMIN .HEADER .FULL,
                     mkDoc 2 2 none .ADMIN .HEADER .FULL,
                     mkDoc 3 3 none .ADMIN .HEADER .FULL]
                     (mkDoc 2 2 none .ADMIN .HEADER .FULL)).get
                     ⟨j, hj⟩).sortId <
                     (mkDoc 2 2 none .ADMIN .HEADER .FULL).sortId
                 then ((oldSiblings [mkDoc 1 1 none .ADMIN .HEADER .FULL,
                     mkDoc 2 2 none .ADMIN .HEADER .FULL,
                     mkDoc 3 3 none .ADMIN .HEADER .FULL]
                     (mkDoc 2 2 none .ADMIN .HEADER .FULL)).get
                     ⟨j, hj⟩).sortId + 1
                 else ((oldSiblings [mkDoc 1 1 none .ADMIN .HEADER .FULL,
                     mkDoc 2 2 none .ADMIN .HEADER .FULL,
                     mkDoc 3 3 none .ADMIN .HEADER .FULL]
                     (mkDoc 2 2 none .ADMIN .HEADER .FULL)).get
                     ⟨j, hj⟩).sortId }) ∧
    findById 2 (reorderMenuItems [mkDoc 1 1 none .ADMIN .HEADER .FULL,
        mkDoc 2 2 none .ADMIN .HEADER .FULL,
        mkDoc 3 3 none .ADMIN .HEADER .FULL] ⟨2, 1, none⟩ 7).2 =
      some { mkDoc 2 2 none .ADMIN .HEADER .FULL with
             parentId := none
             sortId := moveRequestedPosition
               [mkDoc 1 1 none .ADMIN .HEADER .FULL,
                mkDoc 2 2 none .ADMIN .HEADER .FULL,
                mkDoc 3 3 none .ADMIN .HEADER .FULL]
               (mkDoc 2 2 none .ADMIN .HEADER .FULL) ⟨2, 1, none⟩
             lastUpdated := 7
             version := 2 } :=
  move_within_group_shift [mkDoc 1 1 none .ADMIN .HEADER .FULL,
      mkDoc 2 2 none .ADMIN .HEADER .FULL,
      mkDoc 3 3 none .ADMIN .HEADER .FULL] ⟨2, 1, none⟩ 7
    (mkDoc 2 2 none .ADMIN .HEADER .FULL) (by decide) (by decide)
    (by decide) (by decide) (by decide)

/-! ### Flattening the hierarchy projection -/

/-- The items of a state-bucket list, in stored order. -/
def flattenStates (ss : List (StateEnum × List MenuItemDoc)) :
    List MenuItemDoc :=
  (ss.map fun q => q.2).flatten

theorem flattenStates_cons (q : StateEnum × List MenuItemDoc)
    (ss : List (StateEnum × List MenuItemDoc)) :
    flattenStates (q :: ss) = q.2 ++ flattenStates ss := by
  simp [flattenStates]

/-- The items of a subtype-bucket list, in stored order. -/
def flattenAcc (acc : List (StructuralSubtypeEnum ×
    List (StateEnum × List MenuItemDoc))) : List MenuItemDoc :=
  (acc.map fun p => flattenStates p.2).flatten

theorem flattenAcc_cons (p : StructuralSubtypeEnum ×
    List (StateEnum × List MenuItemDoc))
    (acc : List (StructuralSubtypeEnum ×
      List (StateEnum × List MenuItemDoc))) :
    flattenAcc (p :: acc) = flattenStates p.2 ++ flattenAcc acc := by
  simp [flattenAcc]

/-- The `(structuralSubtype, state)` part of the scan order. -/
def keyLE (a b : MenuItemDoc) : Prop :=
  subtypeKey a.structuralSubtype < subtypeKey b.structuralSubtype ∨
    (subtypeKey a.structuralSubtype = subtypeKey b.structuralSubtype ∧
      stateKey a.state ≤ stateKey b.state)

theorem domainScanLE_keyLE {a b : MenuItemDoc} (h : domainScanLE a b) :
    keyLE a b := by
  unfold domainScanLE at h
  unfold keyLE
  rcases h with h | ⟨e, h⟩
  · exact Or.inl h
  · refine Or.inr ⟨e, ?_⟩
    rcases h with h | ⟨f, _⟩
    · exact le_of_lt h
    · exact le_of_eq f

theorem subtypeKey_inj {a b : StructuralSubtypeEnum}
    (h : subtypeKey a = subtypeKey b) : a = b := by
  cases a <;> cases b <;> revert h <;> decide

theorem stateKey_inj {a b : StateEnum}
    (h : stateKey a = stateKey b) : a = b := by
  cases a <;> cases b <;> revert h <;> decide

/-- Invariant of a state-bucket list built by `pushState`: strictly
increasing stored keys, nonempty buckets, and each bucket holding only
items of its state. -/
def statesInv (ss : List (StateEnum × List MenuItemDoc)) : Prop :=
  List.Sorted (· < ·) (ss.map fun q => stateKey q.1) ∧
  (∀ q ∈ ss, q.2 ≠ []) ∧
  (∀ q ∈ ss, ∀ e ∈ q.2, e.state = q.1)

/-- Invariant of a subtype-bucket list built by `pushItem`. -/
def hierInv (acc : List (StructuralSubtypeEnum ×
    List (StateEnum × List MenuItemDoc))) : Prop :=
  List.Sorted (· < ·) (acc.map fun p => subtypeKey p.1) ∧
  (∀ p ∈ acc, p.2 ≠ []) ∧
  (∀ p ∈ acc, statesInv p.2) ∧
  (∀ p ∈ acc, ∀ e ∈ flattenStates p.2, e.structuralSubtype = p.1)

theorem hierInv_nil : hierInv [] := by
  refine ⟨by simp, by simp, by simp, by simp⟩

theorem statesInv_exists_mem {ss : List (StateEnum × List MenuItemDoc)}
    (hinv : statesInv ss) (hne : ss ≠ []) :
    ∃ e, e ∈ flattenStates ss := by
  cases ss with
  | nil => exact absurd rfl hne
  | cons q rest =>
    have hq := hinv.2.1 q (by simp)
    cases hq2 : q.2 with
    | nil => exact absurd hq2 hq
    | cons e es =>
      refine ⟨e, ?_⟩
      rw [flattenStates_cons]
      exact List.mem_append_left _ (by simp [hq2])

theorem hierInv_bucket_elem {acc : List (StructuralSubtypeEnum ×
    List (StateEnum × List MenuItemDoc))} (hinv : hierInv acc)
    {p : StructuralSubtypeEnum × List (StateEnum × List MenuItemDoc)}
    (hp : p ∈ acc) :
    ∃ e ∈ flattenAcc acc, e.structuralSubtype = p.1 := by
  obtain ⟨e, he⟩ := statesInv_exists_mem (hinv.2.2.1 p hp) (hinv.2.1 p hp)
  refine ⟨e, ?_, hinv.2.2.2 p hp e he⟩
  exact List.mem_flatten.mpr
    ⟨flattenStates p.2, List.mem_map_of_mem _ hp, he⟩

theorem pushState_keys (st : StateEnum) (item : MenuItemDoc) :
    ∀ (ss : List (StateEnum × List MenuItemDoc)),
      ∀ k ∈ (pushState st item ss).map fun q => stateKey q.1,
        k ∈ ss.map (fun q => stateKey q.1) ∨ k = stateKey st := by
  intro ss
  induction ss with
  | nil =>
    intro k hk
    simp [pushState] at hk
    exact Or.inr hk
  | cons hd rest ih =>
    obtain ⟨st', docs⟩ := hd
    intro k hk
    by_cases h : st' = st
    · rw [show pushState st item ((st', docs) :: rest) =
        (st', docs ++ [item]) :: rest from by simp [pushState, h]] at hk
      simp only [List.map_cons, List.mem_cons] at hk ⊢
      rcases hk with hk | hk
      · exact Or.inl (Or.inl hk)
      · exact Or.inl (Or.inr hk)
    · rw [show pushState st item ((st', docs) :: rest) =
        (st', docs) :: pushState st item rest from by simp [pushState, h]]
        at hk
      simp only [List.map_cons, List.mem_cons] at hk ⊢
      rcases hk with hk | hk
      · exact Or.inl (Or.inl hk)
      · rcases ih k hk with h' | h'
        · exact Or.inl (Or.inr h')
        · exact Or.inr h'

theorem pushItem_keys (item : MenuItemDoc) :
    ∀ (acc : List (StructuralSubtypeEnum ×
        List (StateEnum × List MenuItemDoc))),
      ∀ k ∈ (pushItem item acc).map fun p => subtypeKey p.1,
        k ∈ acc.map (fun p => subtypeKey p.1) ∨
          k = subtypeKey item.structuralSubtype := by
  intro acc
  induction acc with
  | nil =>
    intro k hk
    simp [pushItem] at hk
    exact Or.inr hk
  | cons hd rest ih =>
    obtain ⟨sub, states⟩ := hd
    intro k hk
    by_cases h : sub = item.structuralSubtype
    · rw [show pushItem item ((sub, states) :: rest) =
        (sub, pushState item.state item states) :: rest from by
          simp [pushItem, h]] at hk
      simp only [List.map_cons, List.mem_cons] at hk ⊢
      rcases hk with hk | hk
      · exact Or.inl (Or.inl hk)
      · exact Or.inl (Or.inr hk)
    · rw [show pushItem item ((sub, states) :: rest) =
        (sub, states) :: pushItem item rest from by simp [pushItem, h]]
        at hk
      simp only [List.map_cons, List.mem_cons] at hk ⊢
      rcases hk with hk | hk
      · exact Or.inl (Or.inl hk)
      · rcases ih k hk with h' | h'
        · exact Or.inl (Or.inr h')
        · exact Or.inr h'

/-- One `pushState` of an item whose state key dominates every bucketed
item appends it at the very end and preserves the invariant. -/
theorem pushState_spec (item : MenuItemDoc) :
    ∀ (ss : List (StateEnum × List MenuItemDoc)), statesInv ss →
      (∀ e ∈ flattenStates ss, stateKey e.state ≤ stateKey item.state) →
      flattenStates (pushState item.state item ss) =
        flattenStates ss ++ [item] ∧
      statesInv (pushState item.state item ss) := by
  intro ss
  induction ss with
  | nil =>
    intro _ _
    constructor
    · simp [pushState, flattenStates]
    · refine ⟨by simp [pushState], ?_, ?_⟩
      · intro q hq
        simp [pushState] at hq
        rw [hq]
        simp
      · intro q hq e he
        simp [pushState] at hq
        rw [hq] at he ⊢
        simp at he
        rw [he]
  | cons hd rest ih =>
    obtain ⟨st', docs⟩ := hd
    intro hinv hko
    obtain ⟨hsorted0, hne, hst⟩ := hinv
    rw [List.map_cons, List.sorted_cons] at hsorted0
    by_cases h : st' = item.state
    · have hrest : rest = [] := by
        cases hq0 : rest with
        | nil => rfl
        | cons q rest' =>
          exfalso
          have hq2 := hne q (by simp [hq0])
          cases hq : q.2 with
          | nil => exact hq2 hq
          | cons e es =>
            have hemem : e ∈ flattenStates ((st', docs) :: rest) := by
              rw [flattenStates_cons, hq0, flattenStates_cons]
              exact List.mem_append_right _
                (List.mem_append_left _ (by simp [hq]))
            have hkey := hko e hemem
            have hestate : e.state = q.1 := hst q (by simp [hq0]) e
              (by simp [hq])
            have h1 : stateKey st' < stateKey q.1 :=
              hsorted0.1 _ (by rw [hq0]; simp)
            rw [hestate, ← h] at hkey
            exact absurd h1 (not_lt.mpr hkey)
      subst hrest
      have hpush : pushState item.state item ((st', docs) :: []) =
          (st', docs ++ [item]) :: [] := by
        simp [pushState, h]
      rw [hpush]
      constructor
      · rw [flattenStates_cons, flattenStates_cons]
        simp [flattenStates]
      · refine ⟨by simp, ?_, ?_⟩
        · intro q hq
          simp at hq
          rw [hq]
          simp
        · intro q hq e he
          simp at hq
          rw [hq] at he ⊢
          simp at he
          rcases he with he | he
          · exact hst (st', docs) (by simp) e he
          · rw [he]
            exact h.symm
    · have hkorest : ∀ e ∈ flattenStates rest,
          stateKey e.state ≤ stateKey item.state := by
        intro e he
        refine hko e ?_
        rw [flattenStates_cons]
        exact List.mem_append_right _ he
      have hinvrest : statesInv rest :=
        ⟨hsorted0.2, fun q hq => hne q (by simp [hq]),
         fun q hq => hst q (by simp [hq])⟩
      have hih := ih hinvrest hkorest
      have hpush : pushState item.state item ((st', docs) :: rest) =
          (st', docs) :: pushState item.state item rest := by
        simp [pushState, h]
      rw [hpush]
      constructor
      · rw [flattenStates_cons, flattenStates_cons, hih.1,
          List.append_assoc]
      · obtain ⟨hs2, hn2, hst2⟩ := hih.2
        refine ⟨?_, ?_, ?_⟩
        · rw [List.map_cons, List.sorted_cons]
          refine ⟨?_, hs2⟩
          intro b hb
          rcases pushState_keys item.state item rest b hb with hb' | hb'
          · exact hsorted0.1 b hb'
          · rw [hb']
            have hd1 : docs ≠ [] := hne (st', docs) (by simp)
            cases hdocs : docs with
            | nil => exact absurd hdocs hd1
            | cons e es =>
              have hemem : e ∈ flattenStates ((st', docs) :: rest) := by
                rw [flattenStates_cons]
                exact List.mem_append_left _ (by simp [hdocs])
              have hkey := hko e hemem
              have hestate : e.state = st' :=
                hst (st', docs) (by simp) e (by simp [hdocs])
              rw [hestate] at hkey
              exact lt_of_le_of_ne hkey fun hc => h (stateKey_inj hc)
        · intro q hq
          rcases List.mem_cons.mp hq with hq' | hq'
          · rw [hq']
            exact hne (st', docs) (by simp)
          · exact hn2 q hq'
        · intro q hq e he
          rcases List.mem_cons.mp hq with hq' | hq'
          · rw [hq'] at he ⊢
            exact hst (st', docs) (by simp) e he
          · exact hst2 q hq' e he

/-- One `pushItem` of an item whose key pair dominates every bucketed
item appends it at the very end and preserves the invariant. -/
theorem pushItem_spec (item : MenuItemDoc) :
    ∀ (acc : List (StructuralSubtypeEnum ×
        List (StateEnum × List MenuItemDoc))), hierInv acc →
      (∀ e ∈ flattenAcc acc, keyLE e item) →
      flattenAcc (pushItem item acc) = flattenAcc acc ++ [item] ∧
      hierInv (pushItem item acc) := by
  intro acc
  induction acc with
  | nil =>
    intro _ _
    constructor
    · simp [pushItem, pushState, flattenAcc, flattenStates]
    · refine ⟨by simp [pushItem], ?_, ?_, ?_⟩
      · intro p hp
        simp [pushItem, pushState] at hp
        rw [hp]
        simp
      · intro p hp
        simp [pushItem, pushState] at hp
        rw [hp]
        exact ⟨by simp, by intro q hq; simp at hq; rw [hq]; simp,
          by intro q hq e he; simp at hq; rw [hq] at he ⊢; simp at he;
             rw [he]⟩
      · intro p hp e he
        simp [pushItem, pushState] at hp
        rw [hp] at he ⊢
        rw [flattenStates_cons] at he
        simp [flattenStates] at he
        rw [he]
  | cons hd rest ih =>
    obtain ⟨sub, states⟩ := hd
    intro hinv hko
    obtain ⟨hsorted0, hne, hsinv, hsub⟩ := hinv
    rw [List.map_cons, List.sorted_cons] at hsorted0
    by_cases h : sub = item.structuralSubtype
    · have hrest : rest = [] := by
        cases hq0 : rest with
        | nil => rfl
        | cons q rest' =>
          exfalso
          obtain ⟨e, hemem, hesub⟩ := hierInv_bucket_elem
            (⟨by rw [List.map_cons, List.sorted_cons]; exact hsorted0,
              hne, hsinv, hsub⟩ :
              hierInv ((sub, states) :: rest))
            (show q ∈ (sub, states) :: rest by simp [hq0])
          have hkey := hko e hemem
          have h1 : subtypeKey sub < subtypeKey q.1 :=
            hsorted0.1 _ (by rw [hq0]; simp)
          unfold keyLE at hkey
          rw [hesub, ← h] at hkey
          rcases hkey with hk | ⟨hk, _⟩
          · exact absurd h1 (not_lt.mpr (le_of_lt hk))
          · exact absurd h1 (not_lt.mpr (le_of_eq hk))
      subst hrest
      have hkoin : ∀ e ∈ flattenStates states,
          stateKey e.state ≤ stateKey item.state := by
        intro e he
        have hemem : e ∈ flattenAcc ((sub, states) :: []) := by
          rw [flattenAcc_cons]
          exact List.mem_append_left _ he
        have hkey := hko e hemem
        have hesub : e.structuralSubtype = sub :=
          hsub (sub, states) (by simp) e he
        unfold keyLE at hkey
        rw [hesub, h] at hkey
        rcases hkey with hk | ⟨_, hk⟩
        · exact absurd hk (lt_irrefl _)
        · exact hk
      have hps := pushState_spec item states
        (hsinv (sub, states) (by simp)) hkoin
      have hpush : pushItem item ((sub, states) :: []) =
          (sub, pushState item.state item states) :: [] := by
        simp [pushItem, h]
      rw [hpush]
      constructor
      · rw [flattenAcc_cons, flattenAcc_cons, hps.1]
        simp [flattenAcc]
      · refine ⟨by simp, ?_, ?_, ?_⟩
        · intro p hp
          simp at hp
          rw [hp]
          intro hc
          simp only [] at hc
          have hflat := hps.1
          rw [hc] at hflat
          simp [flattenStates] at hflat
        · intro p hp
          simp at hp
          rw [hp]
          exact hps.2
        · intro p hp e he
          simp at hp
          rw [hp] at he ⊢
          rw [hps.1] at he
          rcases List.mem_append.mp he with he | he
          · exact hsub (sub, states) (by simp) e he
          · rw [show e = item by simpa using he]
            exact h.symm
    · have hkorest : ∀ e ∈ flattenAcc rest, keyLE e item := by
        intro e he
        refine hko e ?_
        rw [flattenAcc_cons]
        exact List.mem_append_right _ he
      have hinvrest : hierInv rest :=
        ⟨hsorted0.2, fun p hp => hne p (by simp [hp]),
         fun p hp => hsinv p (by simp [hp]),
         fun p hp => hsub p (by simp [hp])⟩
      have hih := ih hinvrest hkorest
      have hpush : pushItem item ((sub, states) :: rest) =
          (sub, states) :: pushItem item rest := by
        simp [pushItem, h]
      rw [hpush]
      obtain ⟨hs2, hn2, hsi2, hsub2⟩ := hih.2
      constructor
      · rw [flattenAcc_cons, flattenAcc_cons, hih.1, List.append_assoc]
      · refine ⟨?_, ?_, ?_, ?_⟩
        · rw [List.map_cons, List.sorted_cons]
          refine ⟨?_, hs2⟩
          intro b hb
          rcases pushItem_keys item (rest) b hb with hb' | hb'
          · exact hsorted0.1 b hb'
          · rw [hb']
            obtain ⟨e, hemem, hesub⟩ := hierInv_bucket_elem
              (⟨by rw [List.map_cons, List.sorted_cons]; exact hsorted0,
                hne, hsinv, hsub⟩ :
                hierInv ((sub, states) :: rest))
              (show (sub, states) ∈ (sub, states) :: rest by simp)
            have hkey := hko e hemem
            unfold keyLE at hkey
            rw [hesub] at hkey
            have hle : subtypeKey sub ≤
                subtypeKey item.structuralSubtype := by
              rcases hkey with hk | ⟨hk, _⟩
              · exact le_of_lt hk
              · exact le_of_eq hk
            exact lt_of_le_of_ne hle fun hc => h (subtypeKey_inj hc)
        · intro p hp
          rcases List.mem_cons.mp hp with hp' | hp'
          · rw [hp']
            exact hne (sub, states) (by simp)
          · exact hn2 p hp'
        · intro p hp
          rcases List.mem_cons.mp hp with hp' | hp'
          · rw [hp']
            exact hsinv (sub, states) (by simp)
          · exact hsi2 p hp'
        · intro p hp e he
          rcases List.mem_cons.mp hp with hp' | hp'
          · rw [hp'] at he ⊢
            exact hsub (sub, states) (by simp) e he
          · exact hsub2 p hp' e he

/-- Folding sorted items through `pushItem` flattens back to the input. -/
theorem foldl_pushItem_flatten :
    ∀ (l : List MenuItemDoc)
      (acc : List (StructuralSubtypeEnum ×
        List (StateEnum × List MenuItemDoc))),
      hierInv acc →
      (∀ e ∈ flattenAcc acc, ∀ x ∈ l, keyLE e x) →
      List.Pairwise keyLE l →
      flattenAcc (l.foldl (fun a i => pushItem i a) acc) =
        flattenAcc acc ++ l := by
  intro l
  induction l with
  | nil =>
    intro acc _ _ _
    simp
  | cons x xs ih =>
    intro acc hinv hbd hpw
    have hpc := List.pairwise_cons.mp hpw
    have hpush := pushItem_spec x acc hinv fun e he => hbd e he x (by simp)
    rw [List.foldl_cons]
    rw [ih (pushItem x acc) hpush.2 ?_ hpc.2]
    · rw [hpush.1, List.append_assoc]
      simp
    · intro e he y hy
      rw [hpush.1] at he
      rcases List.mem_append.mp he with he | he
      · exact hbd e he y (by simp [hy])
      · rw [show e = x by simpa using he]
        exact hpc.1 y hy

/-- C7.  `getMenuHierarchy` is a pure projection: flattening its nested
`structuralSubtype → state → ordered list` output in stored key order
reproduces exactly the `(structuralSubtype, state, sortId)`-sorted scan
of the domain's items (`findByDomain`), and the store is returned
unchanged — no write occurs. -/
theorem hierarchy_flatten_roundtrip (store : Store) (domain : DomainEnum)
    (includeArchived : Bool) :
    flattenHierarchy (getMenuHierarchy store domain includeArchived).1 =
      findByDomain store domain includeArchived ∧
    (getMenuHierarchy store domain includeArchived).2 = store := by
  refine ⟨?_, rfl⟩
  have hsorted : List.Sorted domainScanLE
      (findByDomain store domain includeArchived) :=
    List.sorted_insertionSort domainScanLE _
  have hpw : List.Pairwise keyLE
      (findByDomain store domain includeArchived) :=
    hsorted.imp fun hab => domainScanLE_keyLE hab
  show flattenAcc ((findByDomain store domain includeArchived).foldl
    (fun a i => pushItem i a) []) = _
  rw [foldl_pushItem_flatten _ [] hierInv_nil
    (by intro e he; simp [flattenAcc] at he) hpw]
  simp [flattenAcc]

end NavSvc
